import Mathlib

/-
Formal model of the document extraction and restructuring pipeline of
`book_scraper.py` (class `WebToEpubConverter`).

The HTML trees handled by BeautifulSoup are modelled by the inductive type
`Node` (element / text / comment).  BeautifulSoup library operations used by
the source (`find_all`, `find`, `get_text`, class matching, `urljoin`,
`urlparse`, regular-expression searches for the fixed patterns appearing in
the source) are modelled by explicit Lean functions over this type, matching
their documented behaviour on the inputs the program manipulates
(ASCII case folding; Python's default whitespace set).

Mutation-based BeautifulSoup idioms are re-expressed functionally:
`tag.append(child)` moves `child` in BeautifulSoup; all loops in the source
iterate over snapshot lists of siblings (or over `list(tag.contents)`), so on
trees where the collected candidates are not nested inside one another the
functional reading below coincides with the mutating one.  The empty-tag
pruning loop of `_extract_content_slice` iterates a document-order snapshot,
so each element's emptiness test sees its original subtree (ancestors precede
descendants in document order); it is therefore modelled as a top-down pass.
-/

/-- Model of a parsed HTML node: element with tag name, attribute list and
ordered children, text node, or comment node. -/
inductive Node where
  | elem (tag : String) (attrs : List (String × String)) (children : List Node)
  | text (s : String)
  | comment (s : String)

def Node.beq : Node → Node → Bool
  | .elem t1 a1 c1, .elem t2 a2 c2 => t1 == t2 && a1 == a2 && beqList c1 c2
  | .text s1, .text s2 => s1 == s2
  | .comment s1, .comment s2 => s1 == s2
  | _, _ => false
where beqList : List Node → List Node → Bool
  | [], [] => true
  | a :: as, b :: bs => Node.beq a b && beqList as bs
  | _, _ => false

theorem Node.beq_refl : (n : Node) → Node.beq n n = true
  | .text _ => by simp [Node.beq]
  | .comment _ => by simp [Node.beq]
  | .elem _ _ ch => by simp [Node.beq]; exact beqList_refl ch
where beqList_refl : (l : List Node) → Node.beq.beqList l l = true
  | [] => rfl
  | n :: ns => by
      simp [Node.beq.beqList]
      exact ⟨Node.beq_refl n, beqList_refl ns⟩

theorem Node.eq_of_beq : (a b : Node) → Node.beq a b = true → a = b
  | .elem t1 a1 c1, .elem t2 a2 c2 => by
      intro h
      simp only [Node.beq, Bool.and_eq_true, beq_iff_eq] at h
      obtain ⟨⟨ht, ha⟩, hc⟩ := h
      subst ht; subst ha
      rw [eqList_of_beqList c1 c2 hc]
  | .text s1, .text s2 => by
      intro h
      simp only [Node.beq, beq_iff_eq] at h
      rw [h]
  | .comment s1, .comment s2 => by
      intro h
      simp only [Node.beq, beq_iff_eq] at h
      rw [h]
  | .elem _ _ _, .text _ => by simp [Node.beq]
  | .elem _ _ _, .comment _ => by simp [Node.beq]
  | .text _, .elem _ _ _ => by simp [Node.beq]
  | .text _, .comment _ => by simp [Node.beq]
  | .comment _, .elem _ _ _ => by simp [Node.beq]
  | .comment _, .text _ => by simp [Node.beq]
where eqList_of_beqList : (l1 l2 : List Node) → Node.beq.beqList l1 l2 = true → l1 = l2
  | [], [] => by intro _; rfl
  | a :: as, b :: bs => by
      intro h
      simp only [Node.beq.beqList, Bool.and_eq_true] at h
      rw [Node.eq_of_beq a b h.1, eqList_of_beqList as bs h.2]
  | [], _ :: _ => by simp [Node.beq.beqList]
  | _ :: _, [] => by simp [Node.beq.beqList]

instance : DecidableEq Node := fun a b =>
  decidable_of_iff (Node.beq a b = true)
    ⟨Node.eq_of_beq a b, fun h => h ▸ Node.beq_refl a⟩

/-- Python's default whitespace characters (`str.strip`, `\s`). -/
def wsChar (c : Char) : Bool :=
  c == ' ' || c == '\t' || c == '\n' || c == '\r' || c == '\x0b' || c == '\x0c'

/-- Remove every whitespace character from a string (used to compare
non-whitespace text content). -/
def stripAllWs (s : String) : String := ⟨s.data.filter (fun c => !wsChar c)⟩

def dropTrail (p : Char → Bool) (l : List Char) : List Char :=
  (l.reverse.dropWhile p).reverse

/-- Python `str.strip()`: drop leading and trailing whitespace. -/
def trimStr (s : String) : String := ⟨dropTrail wsChar (s.data.dropWhile wsChar)⟩

def strConcat : List String → String
  | [] => ""
  | s :: rest => s ++ strConcat rest

/-- The strings of the text nodes of a subtree, in document order.
Comment nodes are not text content. -/
def textNodes : Node → List String
  | .text s => [s]
  | .comment _ => []
  | .elem _ _ ch => go ch
where go : List Node → List String
  | [] => []
  | n :: ns => textNodes n ++ go ns

/-- Model of BeautifulSoup `tag.get_text(strip=True)`: each contained string
stripped, then joined. -/
def getTextStrip (n : Node) : String := strConcat ((textNodes n).map trimStr)

/-- Model of BeautifulSoup `tag.get_text()` (no stripping). -/
def getTextRaw (n : Node) : String := strConcat (textNodes n)

/-- The text content of a subtree with all whitespace removed. -/
def textNoWs (n : Node) : String := strConcat ((textNodes n).map stripAllWs)

def textNoWsL (l : List Node) : String := strConcat ((textNodes.go l).map stripAllWs)

/-- Truthiness of `tag.get_text(strip=True)` in the source. -/
def hasStrippedText (n : Node) : Bool := !(getTextStrip n).isEmpty

/-- Split a string on whitespace into non-empty tokens (HTML multi-valued
attributes such as `class` and `rel`). -/
def splitWsTokens (l : List Char) : List String :=
  go l []
where
  flush (cur : List Char) (acc : List String) : List String :=
    match cur with
    | [] => acc
    | _ => acc ++ [⟨cur.reverse⟩]
  go : List Char → List Char → List String
  | [], cur => flush cur []
  | c :: cs, cur => if wsChar c then flush cur [] ++ go cs [] else go cs (c :: cur)

def Node.tagOf : Node → String
  | .elem t _ _ => t
  | _ => ""

/-- First value bound to an attribute key (BeautifulSoup `tag.get(key)` /
`tag[key]`). -/
def getAttr (n : Node) (k : String) : Option String :=
  match n with
  | .elem _ attrs _ => (attrs.find? (fun p => p.1 == k)).map (·.2)
  | _ => none

def hasAttrB (n : Node) (k : String) : Bool := (getAttr n k).isSome

/-- The class tokens of an element (BeautifulSoup parses `class` as a
whitespace-separated multi-valued attribute). -/
def classesOf (n : Node) : List String :=
  match getAttr n "class" with
  | some v => splitWsTokens v.data
  | none => []

def hasClass (n : Node) (c : String) : Bool := (classesOf n).contains c

/-- All element nodes of a subtree (the node itself included) in document
order: `soup.find_all(...)` scans exactly this list when `soup` is a whole
document. -/
def elemsOf : Node → List Node
  | .text _ => []
  | .comment _ => []
  | .elem t a ch => .elem t a ch :: go ch
where go : List Node → List Node
  | [] => []
  | n :: ns => elemsOf n ++ go ns

/-- The element nodes strictly below a node (`tag.find_all` / `tag.find`
search descendants only). -/
def strictElems (n : Node) : List Node :=
  match n with
  | .elem _ _ ch => elemsOf.go ch
  | _ => []

def hasStrictDesc (p : Node → Bool) (n : Node) : Bool := (strictElems n).any p

/-- `tag.find('img')` truthiness. -/
def hasImgDesc (n : Node) : Bool := hasStrictDesc (fun e => e.tagOf == "img") n

/-- `tag.find('a', href=True)` truthiness. -/
def hasLinkHrefDesc (n : Node) : Bool :=
  hasStrictDesc (fun e => e.tagOf == "a" && hasAttrB e "href") n

def isDivWithClass (c : String) (n : Node) : Bool := n.tagOf == "div" && hasClass n c

/- ===== Content Slicer (`_extract_content_slice`, lines 79-152) ===== -/

/-- `content_soup.find_all('div', class_='text-center')`. -/
def textCenterDivs (soup : Node) : List Node :=
  (elemsOf soup).filter (isDivWithClass "text-center")

/-- `all_text_center_divs[-3]` when at least three exist, else no marker. -/
def endMarkerOf (soup : Node) : Option Node :=
  let l := textCenterDivs soup
  if 3 ≤ l.length then l.get? (l.length - 3) else none

/-- `content_soup.find_all('div', class_='row')`. -/
def rowDivsOf (soup : Node) : List Node :=
  (elemsOf soup).filter (isDivWithClass "row")

/-- A row is skipped when it contains a breadcrumb element or a
`nav.navbar` element; otherwise it is kept iff it has stripped text or an
image descendant. -/
def keepRow (r : Node) : Bool :=
  !(hasStrictDesc (fun e => hasClass e "breadcrumb") r ||
    hasStrictDesc (fun e => e.tagOf == "nav" && hasClass e "navbar") r) &&
  (hasStrippedText r || hasImgDesc r)

/-- The accumulation loop of `_extract_content_slice`: iterate row divs in
document order, stop (exclusive) at the first row equal to the end marker,
keep qualifying rows. -/
def collectRows (marker : Option Node) : List Node → List Node
  | [] => []
  | r :: rs =>
    if marker = some r then []
    else if keepRow r then r :: collectRows marker rs
    else collectRows marker rs

/-- Remove (subtree removal, `decompose`) every element matched by `p`,
recursing below survivors. -/
def removeMatchingN (p : Node → Bool) : Node → Option Node
  | .elem t a ch => if p (.elem t a ch) then none else some (.elem t a (goL ch))
  | n => some n
where goL : List Node → List Node
  | [] => []
  | n :: ns =>
    match removeMatchingN p n with
    | none => goL ns
    | some n' => n' :: goL ns

def removeMatchingL (p : Node → Bool) (l : List Node) : List Node :=
  removeMatchingN.goL p l

def unwantedTagNames : List String :=
  ["script", "form", "iframe", "nav", "header", "footer", "style", "noscript"]

/-- Cleanup phase 1: decompose unwanted structural tags. -/
def cleanupPhase1 (l : List Node) : List Node :=
  unwantedTagNames.foldl (fun acc nm => removeMatchingL (fun e => e.tagOf == nm) acc) l

def unwantedSelectors : List (Node → Bool) :=
  [ fun e => hasClass e "social-share-buttons"
  , fun e => hasClass e "navbar"
  , fun e => hasClass e "breadcrumb"
  , fun e => hasClass e "menu"
  , fun e => hasClass e "prev-next-links"
  , fun e => getAttr e "id" == some "pagination" ]

/-- Cleanup phase 2: decompose elements matching the presentational
class/id denylist. -/
def cleanupPhase2 (l : List Node) : List Node :=
  unwantedSelectors.foldl (fun acc sel => removeMatchingL sel acc) l

def pruneTags : List String := ["p", "div", "span", "h1", "h2", "h3", "h4", "h5", "h6"]

/-- Cleanup phase 3: remove the listed tags when they have no stripped text,
no image descendant and no `a[href]` descendant.  The source iterates a
document-order snapshot while decomposing, which this top-down pass
reproduces (each element is tested against its still-unpruned subtree). -/
def pruneEmptyN : Node → Option Node
  | .elem t a ch =>
    if pruneTags.contains t && !hasStrippedText (.elem t a ch) &&
       !hasImgDesc (.elem t a ch) && !hasLinkHrefDesc (.elem t a ch)
    then none
    else some (.elem t a (goL ch))
  | n => some n
where goL : List Node → List Node
  | [] => []
  | n :: ns =>
    match pruneEmptyN n with
    | none => goL ns
    | some n' => n' :: goL ns

def pruneEmptyL (l : List Node) : List Node := pruneEmptyN.goL l

def cleanupChildren (l : List Node) : List Node :=
  pruneEmptyL (cleanupPhase2 (cleanupPhase1 l))

/-- `_extract_content_slice`: the returned accumulator `<div>` holding the
collected rows after cleanup. -/
def extractContentSlice (soup : Node) : Node :=
  .elem "div" [] (cleanupChildren (collectRows (endMarkerOf soup) (rowDivsOf soup)))

/- Concrete instances for claim C1. -/

/-- A `text-center` div used as section marker in the C1 instances. -/
def tcDiv (s : String) : Node := .elem "div" [("class", "text-center")] [.text s]

def c1row : Node := .elem "div" [("class", "row")] [.text "hello"]

/-- Page with three `text-center` markers whose third-from-last is *not* a row
container, and a qualifying row after it in document order. -/
def c1soup : Node :=
  .elem "html" [] [.elem "body" [] [tcDiv "a", c1row, tcDiv "b", tcDiv "c"]]

/-- A div carrying both `row` and `text-center` (marker that is itself a row
container). -/
def wrDiv (s : String) : Node := .elem "div" [("class", "row text-center")] [.text s]

def c1wrowA : Node := .elem "div" [("class", "row")] [.text "content"]

/-- Page whose section markers are themselves row containers. -/
def c1wsoup : Node :=
  .elem "html" [] [.elem "body" [] [c1wrowA, wrDiv "x", wrDiv "y", wrDiv "z"]]

/- ===== Paragraph Wrapper (`_wrap_content_in_paragraph`, lines 343-402) ===== -/

def Node.childrenOf : Node → List Node
  | .elem _ _ ch => ch
  | _ => []

/-- The block-level tag list of `_wrap_content_in_paragraph`. -/
def isBlockTag (t : String) : Bool :=
  ["p", "div", "h1", "h2", "h3", "h4", "h5", "h6", "ul", "ol", "blockquote", "pre"].contains t

def mkP (ps : List Node) : Node := .elem "p" [] ps

/-- Close an open paragraph accumulator (`target_tag.append(current_p)`). -/
def flushAcc : Option (List Node) → List Node
  | none => []
  | some ps => [mkP ps]

/-- Append a child into the open paragraph accumulator, opening one if none
is active. -/
def accPush (acc : Option (List Node)) (n : Node) : List Node := acc.getD [] ++ [n]

/-- The scan of `_wrap_content_in_paragraph` over `source.contents`; a `div`
child is rebuilt (attributes preserved) with its own contents recursively
wrapped.  The value is the list of nodes appended to the target.  At the end
a still-open accumulator is emitted only if it has stripped text. -/
def wrapNode : Node → Node
  | .elem t a ch => .elem t a (go ch none)
  | n => n
where go : List Node → Option (List Node) → List Node
  | [], none => []
  | [], some ps => if hasStrippedText (mkP ps) then [mkP ps] else []
  | c :: cs, acc =>
    match c with
    | .text s =>
      if (trimStr s).isEmpty then go cs acc
      else go cs (some (accPush acc (.text s)))
    | .comment _ => go cs acc
    | .elem t a ch =>
      if isBlockTag t then
        if t == "div" then flushAcc acc ++ wrapNode (.elem t a ch) :: go cs none
        else flushAcc acc ++ .elem t a ch :: go cs none
      else if t == "img" ||
              (t == "a" && hasAttrB (.elem t a ch) "href" && hasImgDesc (.elem t a ch)) then
        flushAcc acc ++ .elem t a ch :: go cs none
      else go cs (some (accPush acc (.elem t a ch)))

def wrapChildren (l : List Node) (acc : Option (List Node)) : List Node :=
  wrapNode.go l acc

/-- `_wrap_content_in_paragraph(source, target)`: the nodes appended to
`target`.  A bare string source is first wrapped in a temporary div. -/
def wrapContentInParagraph (src : Node) : List Node :=
  match src with
  | .elem _ _ ch => wrapChildren ch none
  | n => wrapChildren [n] none

/- ===== Bilingual Restructurer (`_restructure_bilingual_content`,
   lines 405-504) ===== -/

/-- `element.find_all('div', class_='col-xs-6', recursive=False)`. -/
def colsOf (n : Node) : List Node :=
  n.childrenOf.filter (fun c => c.tagOf == "div" && hasClass c "col-xs-6")

def colHasContent (c : Node) : Bool := hasStrippedText c || hasImgDesc c

/-- The bilingual-row test: a `div.row` with exactly two direct `col-xs-6`
children, both non-empty. -/
def isBilingualRow (n : Node) : Bool :=
  n.tagOf == "div" && hasClass n "row" &&
  (match colsOf n with
   | [c1, c2] => colHasContent c1 && colHasContent c2
   | _ => false)

/-- Build a `td` from a column: `lang` copied when present, content produced
by the Paragraph Wrapper. -/
def tdOf (c : Node) : Node :=
  .elem "td"
    (match getAttr c "lang" with
     | some v => [("lang", v)]
     | none => [])
    (wrapContentInParagraph c)

/-- One table row per grouped row div; a grouped row without exactly two
columns is skipped (defensive `continue` in the source). -/
def mkTrOpt (row : Node) : Option Node :=
  match colsOf row with
  | [c1, c2] => some (.elem "tr" [] [tdOf c1, tdOf c2])
  | _ => none

/-- Total variant of `mkTrOpt` used in statements; they agree on bilingual
rows. -/
def trOfRow (row : Node) : Node := (mkTrOpt row).getD (.elem "tr" [] [])

def tableAttrs : List (String × String) := [("class", "epub-bilingual-table")]

def mkTable (group : List Node) : Node := .elem "table" tableAttrs (group.filterMap mkTrOpt)

/-- Flush a pending group of bilingual rows: emit one table, and only when it
has at least one row. -/
def flushGroup (group : List Node) : List Node :=
  match group with
  | [] => []
  | _ =>
    match group.filterMap mkTrOpt with
    | [] => []
    | _ => [mkTable group]

/-- The accumulation loop of `_restructure_bilingual_content` over the
fragment's direct children. -/
def restructureAux : List Node → List Node → List Node
  | group, [] => flushGroup group
  | group, x :: xs =>
    if isBilingualRow x then restructureAux (group ++ [x]) xs
    else flushGroup group ++ x :: restructureAux [] xs

def restructureChildren (l : List Node) : List Node := restructureAux [] l

/-- `_restructure_bilingual_content`: a fresh accumulator div holding the
restructured children. -/
def restructureBilingualContent (frag : Node) : Node :=
  .elem "div" [] (restructureChildren frag.childrenOf)

/-- Helper for statements: the text of a list of nodes, whitespace removed. -/
def accText : Option (List Node) → String
  | none => ""
  | some ps => textNoWsL ps

/- Concrete instances for claims C2, C6, C7. -/

def colDiv (lang s : String) : Node :=
  .elem "div" [("class", "col-xs-6"), ("lang", lang)] [.text s]

def bilRowEx : Node := .elem "div" [("class", "row")] [colDiv "fr" "Bonjour", colDiv "en" "Hello"]

/-- A non-row div that contains a bilingual row among its own children. -/
def c7div : Node := .elem "div" [("class", "wrapper")] [bilRowEx]

def c6para : Node := .elem "p" [("class", "lead")] [.text "already wrapped"]

/- ===== URL handling (`urllib.parse.urlparse` / `urljoin` as used by the
source; modelled for the http/https URLs the program manipulates) ===== -/

/-- Data-level `String.isEmpty` (kernel-friendly). -/
def strIsEmpty (s : String) : Bool := s.data.isEmpty

/-- Data-level `String.startsWith` (kernel-friendly). -/
def strStartsWith (s pre : String) : Bool := pre.data.isPrefixOf s.data

/-- Python `str.lower()` (ASCII case folding). -/
def toLowerStr (s : String) : String := ⟨s.data.map Char.toLower⟩

def isSchemeChar (c : Char) : Bool := c.isAlphanum || c == '+' || c == '-' || c == '.'

def splitFirstChar (sep : Char) : List Char → List Char × Option (List Char)
  | [] => ([], none)
  | c :: cs =>
    if c == sep then ([], some cs)
    else
      match splitFirstChar sep cs with
      | (b, a) => (c :: b, a)

def netlocSplit (l : List Char) : List Char × List Char :=
  (l.takeWhile (fun c => !(c == '/' || c == '?' || c == '#')),
   l.dropWhile (fun c => !(c == '/' || c == '?' || c == '#')))

/-- The components `urlparse` yields (params unused by the source). -/
structure UrlParts where
  scheme : String
  netloc : String
  path : String
  query : String
  fragment : String
deriving DecidableEq

def parseSchemeSplit (l : List Char) : Option (List Char × List Char) :=
  match splitFirstChar ':' l with
  | (before, some after) =>
    (match before with
     | [] => none
     | c :: rest => if c.isAlpha && rest.all isSchemeChar then some (before, after) else none)
  | (_, none) => none

/-- Model of `urllib.parse.urlparse`: scheme, `//netloc`, then fragment and
query split off the remainder. -/
def urlparseStr (s : String) : UrlParts :=
  let l := s.data
  let (sch, rest) :=
    match parseSchemeSplit l with
    | some (sc, r) => (sc.map Char.toLower, r)
    | none => ([], l)
  let (netloc, rest2) :=
    if ['/', '/'].isPrefixOf rest then netlocSplit (rest.drop 2) else ([], rest)
  let (rest3, fragO) := splitFirstChar '#' rest2
  let (path, queryO) := splitFirstChar '?' rest3
  ⟨⟨sch⟩, ⟨netloc⟩, ⟨path⟩, ⟨queryO.getD []⟩, ⟨fragO.getD []⟩⟩

def unparseUrl (u : UrlParts) : String :=
  (if strIsEmpty u.scheme then "" else u.scheme ++ ":") ++
  (if strIsEmpty u.netloc then "" else "//" ++ u.netloc) ++
  u.path ++
  (if strIsEmpty u.query then "" else "?" ++ u.query) ++
  (if strIsEmpty u.fragment then "" else "#" ++ u.fragment)

def splitOnChar (sep : Char) : List Char → List (List Char)
  | [] => [[]]
  | c :: cs =>
    match splitOnChar sep cs with
    | [] => [[]]
    | h :: t => if c == sep then [] :: h :: t else (c :: h) :: t

def joinWithSlash : List (List Char) → List Char
  | [] => []
  | [s] => s
  | s :: rest => s ++ '/' :: joinWithSlash rest

/-- CPython `urljoin` segment resolution: `..` pops, `.` is dropped. -/
def resolveSegments (segs : List (List Char)) : List (List Char) :=
  segs.foldl (fun acc seg =>
    if seg == ['.', '.'] then acc.dropLast
    else if seg == ['.'] then acc
    else acc ++ [seg]) []

/-- CPython `urljoin`: empty middle segments are filtered out before
resolution (`segments[1:-1] = filter(None, segments[1:-1])`). -/
def filterMiddle (segs : List (List Char)) : List (List Char) :=
  match segs with
  | [] => []
  | [s] => [s]
  | s :: rest =>
    match rest.getLast? with
    | some last => s :: (rest.dropLast.filter (fun x => !x.isEmpty)) ++ [last]
    | none => [s]

/-- Model of `urllib.parse.urljoin` for the http-style URLs the source
resolves (no params handling). -/
def urljoinStr (base url : String) : String :=
  if strIsEmpty base then url
  else if strIsEmpty url then base
  else
    let b := urlparseStr base
    let u := urlparseStr url
    let scheme := if strIsEmpty u.scheme then b.scheme else u.scheme
    if scheme != b.scheme then url
    else if !(strIsEmpty u.netloc) then unparseUrl ⟨scheme, u.netloc, u.path, u.query, u.fragment⟩
    else if strIsEmpty u.path then
      let query := if strIsEmpty u.query then b.query else u.query
      unparseUrl ⟨scheme, b.netloc, b.path, query, u.fragment⟩
    else
      let segs :=
        if strStartsWith u.path "/" then splitOnChar '/' u.path.data
        else
          let bp0 := splitOnChar '/' b.path.data
          let bp :=
            match bp0.getLast? with
            | some [] => bp0
            | _ => bp0.dropLast
          filterMiddle (bp ++ splitOnChar '/' u.path.data)
      let resolved := resolveSegments segs
      let resolved2 :=
        match segs.getLast? with
        | some s => if s == ['.'] || s == ['.', '.'] then resolved ++ [[]] else resolved
        | none => resolved
      let joined := joinWithSlash resolved2
      let path : String := if joined.isEmpty then "/" else ⟨joined⟩
      unparseUrl ⟨scheme, b.netloc, path, u.query, u.fragment⟩

/-- Python substring containment (`needle in hay`). -/
def containsSubL (needle : List Char) : List Char → Bool
  | [] => needle.isEmpty
  | c :: cs => needle.isPrefixOf (c :: cs) || containsSubL needle cs

def containsSub (hay needle : String) : Bool := containsSubL needle.data hay.data

/- ===== The chapter/part marker pattern
   `/(?:c|chapter|chapitre|part|partie)-?(\d+)` ===== -/

def kwsFull : List (List Char) :=
  ["c".data, "chapter".data, "chapitre".data, "part".data, "partie".data]

/-- The reduced alternation used by the TOC flag check (line 752):
`/(?:c|chapter|part)-?(\d+)` — no French variants. -/
def kwsToc : List (List Char) := ["c".data, "chapter".data, "part".data]

def digitsVal (l : List Char) : Nat := l.foldl (fun a c => a * 10 + (c.toNat - 48)) 0

/-- Try one keyword alternative right after a `/`: keyword, optional `-`
(greedy, as in the regex), then a non-empty maximal digit run.  Returns the
matched text after the slash and the numeric value. -/
def matchMarkerKw (kw : List Char) (rest : List Char) : Option (List Char × Nat) :=
  if kw.isPrefixOf rest then
    let r2 := rest.drop kw.length
    match r2 with
    | '-' :: r3 =>
      let ds := r3.takeWhile Char.isDigit
      if ds.isEmpty then none
      else some (kw ++ '-' :: ds, digitsVal ds)
    | _ =>
      let ds := r2.takeWhile Char.isDigit
      if ds.isEmpty then none else some (kw ++ ds, digitsVal ds)
  else none

def tryKwsAt (kws : List (List Char)) (rest : List Char) : Option (List Char × Nat) :=
  match kws with
  | [] => none
  | kw :: more =>
    match matchMarkerKw kw rest with
    | some (g, v) => some ('/' :: g, v)
    | none => tryKwsAt more rest

/-- `re.search` for the marker pattern: leftmost match, alternatives tried in
order at each position.  Returns `group(0)` and `int(group(1))`. -/
def searchMarker (kws : List (List Char)) : List Char → Option (List Char × Nat)
  | [] => none
  | c :: rest =>
    if c == '/' then
      match tryKwsAt kws rest with
      | some r => some r
      | none => searchMarker kws rest
    else searchMarker kws rest

/-- Python `s.split(pat)[0]`: the part before the first occurrence of `pat`
(the whole string when `pat` does not occur). -/
def splitBefore (pat : List Char) : List Char → List Char
  | [] => []
  | c :: cs => if pat.isPrefixOf (c :: cs) then [] else c :: splitBefore pat cs

/- ===== Next-Page Locator (`_find_next_page_url`, lines 190-252) ===== -/

/-- A hyperlink candidate together with its ancestor chain (nearest first),
standing for a `find_all('a', href=True)` result on which `find_parent` can
be evaluated. -/
structure LinkCtx where
  node : Node
  ancestors : List Node
deriving DecidableEq

/-- Collect `a[href]` elements of a subtree in document order, each paired
with its ancestors. -/
def linksWithAnc : List Node → Node → List LinkCtx
  | anc, .elem t a ch =>
    (if t == "a" && hasAttrB (.elem t a ch) "href" then [⟨.elem t a ch, anc⟩] else []) ++
    go (.elem t a ch :: anc) ch
  | _, _ => []
where go : List Node → List Node → List LinkCtx
  | _, [] => []
  | anc, n :: ns => linksWithAnc anc n ++ go anc ns

/-- `soup.find_all('a', href=True)` over the whole document. -/
def allLinksOf (soup : Node) : List LinkCtx := linksWithAnc [] soup

/-- `link.get_text().strip()`. -/
def linkTextOf (lc : LinkCtx) : String := trimStr (getTextRaw lc.node)

/-- `re.search(r'next|suivant|suivante', text, re.IGNORECASE)` truthiness. -/
def hasNextWord (t : String) : Bool :=
  containsSub (toLowerStr t) "next" || containsSub (toLowerStr t) "suivant" ||
  containsSub (toLowerStr t) "suivante"

/-- `re.search(r'previous|précédent', text, re.IGNORECASE)` truthiness. -/
def hasPrevWord (t : String) : Bool :=
  containsSub (toLowerStr t) "previous" || containsSub (toLowerStr t) "précédent"

/-- `link.get('rel') and 'next' in link.get('rel')` (multi-valued
attribute). -/
def relHasNext (l : Node) : Bool :=
  match getAttr l "rel" with
  | some v => (splitWsTokens v.data).contains "next"
  | none => false

/-- `urljoin(current_url, link['href'])`. -/
def resolveHref (currentUrl : String) (link : Node) : String :=
  urljoinStr currentUrl ((getAttr link "href").getD "")

/-- The coarse textual test of tier 1: `»` without `«`, a next-family word,
or `rel` containing `next`. -/
def coarseNextTest (lc : LinkCtx) : Bool :=
  (containsSub (linkTextOf lc) "»" && !containsSub (linkTextOf lc) "«") ||
  hasNextWord (linkTextOf lc) || relHasNext lc.node

/-- Tier 1's origin-and-difference test: base URL contained in the resolved
target, and path, query or fragment differs from the current URL. -/
def sameBaseDiffTest (baseUrl currentUrl : String) (lc : LinkCtx) : Bool :=
  let nextUrl := resolveHref currentUrl lc.node
  let pc := urlparseStr currentUrl
  let pn := urlparseStr nextUrl
  containsSub nextUrl baseUrl &&
  (pc.path != pn.path || pc.query != pn.query || pc.fragment != pn.fragment)

/-- The same-page-anchor skip (line 213): same path as the current URL and a
non-empty fragment.  Note: the query string is not consulted. -/
def samePageAnchorTest (currentUrl : String) (lc : LinkCtx) : Bool :=
  let pn := urlparseStr (resolveHref currentUrl lc.node)
  pn.path == (urlparseStr currentUrl).path && !(strIsEmpty pn.fragment)

/-- `link.find_parent('div', class_='text-center')` or
`link.find_parent('div', class_='prev-next-links')` truthiness. -/
def containerTest (lc : LinkCtx) : Bool :=
  lc.ancestors.any (isDivWithClass "text-center") ||
  lc.ancestors.any (isDivWithClass "prev-next-links")

/-- A text that clearly says next and not previous. -/
def clearTextTest (lc : LinkCtx) : Bool :=
  hasNextWord (linkTextOf lc) && !hasPrevWord (linkTextOf lc)

/-- Tier 1 loop of `_find_next_page_url`, with the source's `continue`
structure. -/
def tier1Scan (baseUrl currentUrl : String) : List LinkCtx → Option String
  | [] => none
  | lc :: rest =>
    if coarseNextTest lc then
      if sameBaseDiffTest baseUrl currentUrl lc then
        if samePageAnchorTest currentUrl lc then tier1Scan baseUrl currentUrl rest
        else if containerTest lc then some (resolveHref currentUrl lc.node)
        else if clearTextTest lc then some (resolveHref currentUrl lc.node)
        else tier1Scan baseUrl currentUrl rest
      else tier1Scan baseUrl currentUrl rest
    else tier1Scan baseUrl currentUrl rest

/-- Tier 2 qualification for one link: the resolved target's lowercased path
carries a marker with value `n + 1`, the base URL occurs in the target, and
the part of the path before the marker equals that of the current path. -/
def tier2Qualifies (baseUrl currentUrl : String) (curPathLower : String) (g0 : List Char)
    (n : Nat) (lc : LinkCtx) : Bool :=
  let cand := resolveHref currentUrl lc.node
  let candPath := toLowerStr (urlparseStr cand).path
  match searchMarker kwsFull candPath.data with
  | some (g0c, nc) =>
    nc == n + 1 && containsSub cand baseUrl &&
    splitBefore g0 curPathLower.data == splitBefore g0c candPath.data
  | none => false

/-- Tier 2 loop (numeric path increment). -/
def tier2Scan (baseUrl currentUrl : String) (curPathLower : String) (g0 : List Char)
    (n : Nat) : List LinkCtx → Option String
  | [] => none
  | lc :: rest =>
    if tier2Qualifies baseUrl currentUrl curPathLower g0 n lc
    then some (resolveHref currentUrl lc.node)
    else tier2Scan baseUrl currentUrl curPathLower g0 n rest

/-- `_find_next_page_url`: tier 1 (textual/relation cues) over all links;
only when it yields nothing, tier 2 (numeric path increment). -/
def findNextPageUrl (baseUrl : String) (soup : Node) (currentUrl : String) : Option String :=
  let allLinks := allLinksOf soup
  match tier1Scan baseUrl currentUrl allLinks with
  | some u => some u
  | none =>
    let curPathLower := toLowerStr (urlparseStr currentUrl).path
    match searchMarker kwsFull curPathLower.data with
    | none => none
    | some (g0, n) => tier2Scan baseUrl currentUrl curPathLower g0 n allLinks

/-- The tier-1 per-link acceptance predicate (specification form of the loop
with its `continue`s). -/
def tier1Accepts (baseUrl currentUrl : String) (lc : LinkCtx) : Bool :=
  coarseNextTest lc && sameBaseDiffTest baseUrl currentUrl lc &&
  !samePageAnchorTest currentUrl lc && (containerTest lc || clearTextTest lc)

/-- Specification form of tier 1: the first accepted link's resolved
target. -/
def tier1First (baseUrl currentUrl : String) (links : List LinkCtx) : Option String :=
  (links.find? (tier1Accepts baseUrl currentUrl)).map (fun lc => resolveHref currentUrl lc.node)

/-- Specification form of tier 2: the first link whose target's path carries
the marker with value N+1 and the same path part before the marker. -/
def numericTierFirst (baseUrl currentUrl : String) (links : List LinkCtx) : Option String :=
  let curPathLower := toLowerStr (urlparseStr currentUrl).path
  match searchMarker kwsFull curPathLower.data with
  | none => none
  | some (g0, n) =>
    (links.find? (tier2Qualifies baseUrl currentUrl curPathLower g0 n)).map
      (fun lc => resolveHref currentUrl lc.node)

/- ===== Chapter Classifier (`_get_chapter_title`, lines 775-800, and the
   TOC flag of `_process_page_content`, lines 752-755) ===== -/

/-- `content.find(['h1','h2','h3'], class_=['text-center','chapter-title',
'section-title'])`. -/
def findTitleTag (frag : Node) : Option Node :=
  (strictElems frag).find? (fun e =>
    (e.tagOf == "h1" || e.tagOf == "h2" || e.tagOf == "h3") &&
    (hasClass e "text-center" || hasClass e "chapter-title" || hasClass e "section-title"))

/-- The URL-based fallbacks of `_get_chapter_title`. -/
def urlTitleFallback (currentUrl : String) (pageCount : Nat) : String :=
  let path := toLowerStr (urlparseStr currentUrl).path
  match searchMarker kwsFull path.data with
  | some (_, n) => "Chapter " ++ toString n
  | none =>
    if containsSub path "introduction" then "Introduction"
    else if containsSub path "preface" then "Preface"
    else "Page " ++ toString pageCount

/-- `_get_chapter_title`. -/
def getChapterTitle (frag : Node) (currentUrl : String) (pageCount : Nat) : String :=
  match findTitleTag frag with
  | some t => if hasStrippedText t then getTextStrip t else urlTitleFallback currentUrl pageCount
  | none => urlTitleFallback currentUrl pageCount

/-- `re.search(r'^(chapter|part)\s*\d+', title.strip(), re.IGNORECASE)`
truthiness. -/
def isChapterTitlePat (title : String) : Bool :=
  let t := (toLowerStr (trimStr title)).data
  (("chapter".data.isPrefixOf t) && startsWithDigitAfterWs (t.drop 7)) ||
  (("part".data.isPrefixOf t) && startsWithDigitAfterWs (t.drop 4))
where startsWithDigitAfterWs (l : List Char) : Bool :=
  match l.dropWhile wsChar with
  | c :: _ => c.isDigit
  | [] => false

/-- The URL half of the TOC flag (line 752): the reduced pattern
`/(?:c|chapter|part)-?(\d+)` on the lowercased path. -/
def tocUrlFlag (url : String) : Bool :=
  (searchMarker kwsToc (toLowerStr (urlparseStr url).path).data).isSome

/-- Following the claim's words: flagged iff the URL path matches the full
marker pattern `/{c|chapter|chapitre|part|partie}-?N` *and* the resolved
title matches the Chapter-N/Part-N pattern. -/
def specChapterFlag (url title : String) : Bool :=
  (searchMarker kwsFull (toLowerStr (urlparseStr url).path).data).isSome &&
  isChapterTitlePat title

/- ===== Resource handling (`_download_resource` callers, lines 722-738 and
   `_process_css_urls`, lines 307-340) ===== -/

/-- `_download_resource(url, folder)` resolves against the converter's base
URL and delegates to the external fetch/cache (parameter `dl`), which yields
the EPUB-internal path or `none` on failure. -/
def downloadResource (dl : String → String → Option String) (baseUrl url folder : String) :
    Option String :=
  dl (urljoinStr baseUrl url) folder

def setAttr (attrs : List (String × String)) (k v : String) : List (String × String) :=
  attrs.map (fun pr => if pr.1 == k then (k, v) else pr)

/-- The image pass of `_process_page_content`: a `data:` URI is skipped, a
successful download rewrites `src`, a failed download removes the `img`
element entirely. -/
def processImgsN (dl : String → String → Option String) (baseUrl : String) :
    Node → Option Node
  | .elem t a ch =>
    if t == "img" && hasAttrB (.elem t a ch) "src" then
      let src := (getAttr (.elem t a ch) "src").getD ""
      if strStartsWith src "data:" then some (.elem t a (goL ch))
      else
        match downloadResource dl baseUrl src "images" with
        | some p => some (.elem t (setAttr a "src" p) (goL ch))
        | none => none
    else some (.elem t a (goL ch))
  | n => some n
where goL : List Node → List Node
  | [] => []
  | n :: ns =>
    match processImgsN dl baseUrl n with
    | none => goL ns
    | some n' => n' :: goL ns

/-- The image pass applied to the content fragment: `find_all('img',
src=True)` visits descendants of the fragment root. -/
def processImages (dl : String → String → Option String) (baseUrl : String) (frag : Node) :
    Node :=
  match frag with
  | .elem t a ch => .elem t a (processImgsN.goL dl baseUrl ch)
  | n => n

/-- The `img[src]` elements strictly below a node. -/
def imgSrcElems (n : Node) : List Node :=
  (strictElems n).filter (fun e => e.tagOf == "img" && hasAttrB e "src")

def isQuoteChar (c : Char) : Bool := c == '\'' || c == '"'

/-- `match.group(2).strip("'\"")`. -/
def stripQuotes (s : String) : String :=
  ⟨dropTrail isQuoteChar (s.data.dropWhile isQuoteChar)⟩

/-- Does the lowercased URL end in `.ext` or contain `.ext?` for one of the
given extensions (the `\.(ext…)(\?.*)?$` tests of `_process_css_urls`)? -/
def extMatchAt (exts : List String) : List Char → Bool
  | [] => false
  | c :: cs =>
    exts.any (fun e =>
      ('.' :: e.data).isPrefixOf (c :: cs) &&
      (let r := (c :: cs).drop (e.data.length + 1)
       r.isEmpty || r.take 1 == ['?'])) ||
    extMatchAt exts cs

/-- Folder classification of a CSS `url()` reference. -/
def cssFolderOf (origUrl : String) : Option String :=
  let low := (toLowerStr origUrl).data
  if extMatchAt ["png", "jpg", "jpeg", "gif", "svg", "webp"] low then some "images"
  else if extMatchAt ["ttf", "otf", "woff", "woff2", "eot"] low then some "fonts"
  else none

/-- `replace_url_callback`: the replacement for one `url()` match, given the
match's pieces; every failure path returns `group(0)` unchanged. -/
def replaceUrlCallback (dl : String → String → Option String) (baseUrl baseCssUrl : String)
    (g0 g1 g2 g3 : String) : String :=
  let orig := stripQuotes g2
  if strStartsWith orig "data:" ||
     ((strStartsWith orig "http://" || strStartsWith orig "https://") &&
      !strStartsWith orig baseUrl) then g0
  else
    let fullResUrl := urljoinStr baseCssUrl orig
    match cssFolderOf orig with
    | none => g0
    | some folder =>
      match downloadResource dl baseUrl fullResUrl folder with
      | some p => g1 ++ ("../" ++ p) ++ g3
      | none => g0

/-- Case-insensitive `url(` token test. -/
def matchesUrlTok : List Char → Bool
  | a :: b :: c :: d :: _ =>
    a.toLower == 'u' && b.toLower == 'r' && c.toLower == 'l' && d == '('
  | _ => false

/-- Find the leftmost `url(` token: before, the four token characters, and
the remainder. -/
def splitAtUrlToken : List Char → Option (List Char × List Char × List Char)
  | [] => none
  | c :: cs =>
    if matchesUrlTok (c :: cs) then some ([], (c :: cs).take 4, (c :: cs).drop 4)
    else
      match splitAtUrlToken cs with
      | some (b, t, a) => some (c :: b, t, a)
      | none => none

/-- `\s*['\"]?` right after the token (group 1's tail). -/
def parseG1 (l : List Char) : List Char × List Char :=
  let w := l.takeWhile wsChar
  match l.dropWhile wsChar with
  | q :: r => if isQuoteChar q then (w ++ [q], r) else (w, q :: r)
  | [] => (w, [])

/-- Try to match group 3 (`['\"]?\s*\)`) at this position. -/
def tryCloseG3 (l : List Char) : Option (List Char × List Char) :=
  match l with
  | [] => none
  | q :: rest2 =>
    if isQuoteChar q then
      let w := rest2.takeWhile wsChar
      match rest2.dropWhile wsChar with
      | ')' :: r => some (q :: (w ++ ')' :: []), r)
      | _ => none
    else
      let w := (q :: rest2).takeWhile wsChar
      match (q :: rest2).dropWhile wsChar with
      | ')' :: r => some (w ++ ')' :: [], r)
      | _ => none

/-- Lazy group 2: grow until group 3 matches; `.` does not cross
newlines. -/
def findCloseG2 : List Char → Option (List Char × List Char × List Char)
  | [] => none
  | c :: cs =>
    match tryCloseG3 (c :: cs) with
    | some (g3, r) => some ([], g3, r)
    | none =>
      if c == '\n' then none
      else
        match findCloseG2 cs with
        | some (g2, g3, r) => some (c :: g2, g3, r)
        | none => none

/-- `_process_css_urls`: scan the stylesheet for `url()` references and apply
the replacement callback; a failed match attempt resumes after the token.
The fuel argument (initialised with the text length, an upper bound on the
number of matches) makes the scan structurally recursive. -/
def processCssScan (dl : String → String → Option String) (baseUrl baseCssUrl : String) :
    Nat → List Char → List Char
  | 0, l => l
  | fuel + 1, l =>
    match splitAtUrlToken l with
    | none => l
    | some (b, tok, after) =>
      match parseG1 after with
      | (g1r, rest1) =>
        match findCloseG2 rest1 with
        | none => b ++ tok ++ processCssScan dl baseUrl baseCssUrl fuel after
        | some (g2, g3, rest) =>
          b ++ (replaceUrlCallback dl baseUrl baseCssUrl
                  ⟨tok ++ g1r ++ g2 ++ g3⟩ ⟨tok ++ g1r⟩ ⟨g2⟩ ⟨g3⟩).data ++
            processCssScan dl baseUrl baseCssUrl fuel rest

def processCssUrls (dl : String → String → Option String) (baseUrl baseCssUrl : String)
    (css : String) : String :=
  ⟨processCssScan dl baseUrl baseCssUrl css.data.length css.data⟩

/- ===== Link rewriting (`_fix_internal_links`, lines 155-187) ===== -/

/-- One crawled page's record (`chapter_data`); the content is kept as a
tree rather than its serialisation. -/
structure ChapterData where
  title : String
  content : Node
  url : String
deriving DecidableEq

/-- A TOC entry as created in `_process_page_content` (title and file name of
an `epub.EpubHtml`). -/
structure NavEntry where
  title : String
  fileName : String
deriving DecidableEq

def pad3 (n : Nat) : String :=
  if n < 10 then "00" ++ toString n
  else if n < 100 then "0" ++ toString n
  else toString n

/-- `f'chap_{len(self.chapters):03d}.xhtml'` (TOC entry creation,
line 763). -/
def navFileName (n : Nat) : String := "chap_" ++ pad3 n ++ ".xhtml"

/-- `f'chap_{i+1:03d}.xhtml'` (`_add_epub_chapters`, line 928: the file name
assigned at packaging time from the 0-based chapter index). -/
def packagingFileName (i : Nat) : String := "chap_" ++ pad3 (i + 1) ++ ".xhtml"

/-- `f'chap_{found_chapter_idx+1:03d}.xhtml'` (link rewriting,
line 181). -/
def chapLinkFileName (i : Nat) : String := "chap_" ++ pad3 (i + 1) ++ ".xhtml"

/-- The first chapter whose cleaned URL path equals the link's cleaned
path. -/
def findChapterIdx (baseUrl cleanFullPath : String) : List ChapterData → Nat → Option Nat
  | [], _ => none
  | c :: cs, i =>
    if urljoinStr baseUrl (urlparseStr c.url).path == cleanFullPath then some i
    else findChapterIdx baseUrl cleanFullPath cs (i + 1)

/-- `_fix_internal_links` on one node: known-chapter links are rewritten to
the chapter file, other internal links are unwrapped (children kept), the
remaining cases are left untouched. -/
def fixLinksN (chapters : List ChapterData) (baseUrl currentUrl : String) :
    Node → List Node
  | .elem t a ch =>
    let newCh := goL ch
    if t == "a" && hasAttrB (.elem t a ch) "href" then
      let href := (getAttr (.elem t a ch) "href").getD ""
      if strStartsWith href "data:" ||
         ((strStartsWith href "http://" || strStartsWith href "https://") &&
          !strStartsWith href baseUrl) then [.elem t a newCh]
      else if strStartsWith href "#" then [.elem t a newCh]
      else
        let fullUrl := urljoinStr currentUrl href
        if containsSub fullUrl baseUrl then
          let cleanFullPath := urljoinStr baseUrl (urlparseStr fullUrl).path
          match findChapterIdx baseUrl cleanFullPath chapters 0 with
          | some i => [.elem t (setAttr a "href" (chapLinkFileName i)) newCh]
          | none => newCh
        else [.elem t a newCh]
    else [.elem t a newCh]
  | n => [n]
where goL : List Node → List Node
  | [] => []
  | n :: ns => fixLinksN chapters baseUrl currentUrl n ++ goL ns

/-- `_fix_internal_links` applied to the fragment (its links are strict
descendants of the accumulator root). -/
def fixInternalLinks (chapters : List ChapterData) (baseUrl currentUrl : String)
    (frag : Node) : Node :=
  match frag with
  | .elem t a ch => .elem t a (fixLinksN.goL chapters baseUrl currentUrl ch)
  | n => n

/- ===== Crawl Orchestrator (`_process_page_content`, lines 697-772, and
   `scrape_book`, lines 803-858) ===== -/

/-- The converter state threaded through the crawl: `self.chapters`,
`self.epub_nav_chapters`, `processed_urls`.  (`self.css_content`, filled from
the first page only, feeds no claim and is not modelled.) -/
structure CrawlState where
  chapters : List ChapterData
  nav : List NavEntry
  visited : List String
deriving DecidableEq

def initialCrawlState : CrawlState := ⟨[], [], []⟩

/-- The slice → restructure → image pass → link-fix pipeline applied to one
page's tree. -/
def pageFragment (dl : String → String → Option String) (baseUrl : String)
    (chapters : List ChapterData) (currentUrl : String) (soup : Node) : Node :=
  fixInternalLinks chapters baseUrl currentUrl
    (processImages dl baseUrl (restructureBilingualContent (extractContentSlice soup)))

/-- The chapter record built for one successfully processed page. -/
def pageRecord (dl : String → String → Option String) (baseUrl : String)
    (chapters : List ChapterData) (currentUrl : String) (pageCount : Nat) (soup : Node) :
    ChapterData :=
  ⟨getChapterTitle (pageFragment dl baseUrl chapters currentUrl soup) currentUrl pageCount,
   pageFragment dl baseUrl chapters currentUrl soup, currentUrl⟩

/-- `_process_page_content`: next URL from the original tree, slice, the
no-meaningful-content early return, restructuring, image pass, link fixing,
title, record append and TOC-flag check.  Returns the new state, the
appended record (if any) and the discovered next URL. -/
def processPage (dl : String → String → Option String) (baseUrl : String) (st : CrawlState)
    (currentUrl : String) (pageCount : Nat) (soup : Node) :
    CrawlState × Option ChapterData × Option String :=
  let next := findNextPageUrl baseUrl soup currentUrl
  if !hasStrippedText (extractContentSlice soup) then (st, none, next)
  else
    let ch := pageRecord dl baseUrl st.chapters currentUrl pageCount soup
    let chapters2 := st.chapters ++ [ch]
    let flagged := tocUrlFlag currentUrl && isChapterTitlePat ch.title
    let nav2 :=
      if flagged then st.nav ++ [⟨ch.title, navFileName chapters2.length⟩] else st.nav
    (⟨chapters2, nav2, st.visited⟩, some ch, next)

/-- `page_count < self.max_pages` (`none` models the non-debug infinite
ceiling). -/
def ltMaxPages (pageCount : Nat) : Option Nat → Bool
  | none => true
  | some m => pageCount < m

/-- The `while` loop of `scrape_book`, with explicit fuel standing for the
unbounded iteration (each recursive call consumes one unit; a run that stops
for lack of fuel simply returns the state reached).  The external fetcher is
the parameter `fetch`. -/
def scrapeLoop (fetch : String → Option Node) (dl : String → String → Option String)
    (baseUrl : String) (maxPages : Option Nat) :
    Nat → CrawlState → String → Nat → CrawlState
  | 0, st, _, _ => st
  | fuel + 1, st, currentUrl, pageCount =>
    if !ltMaxPages pageCount maxPages then st
    else if st.visited.contains currentUrl then st
    else
      let st1 : CrawlState := ⟨st.chapters, st.nav, st.visited ++ [currentUrl]⟩
      let pc := pageCount + 1
      match fetch currentUrl with
      | none => st1
      | some soup =>
        match processPage dl baseUrl st1 currentUrl pc soup with
        | (st2, none, some nu) => scrapeLoop fetch dl baseUrl maxPages fuel st2 nu pc
        | (st2, none, none) => st2
        | (st2, some _, next) =>
          match next with
          | some nu =>
            if nu != currentUrl && ltMaxPages pc maxPages then
              scrapeLoop fetch dl baseUrl maxPages fuel st2 nu pc
            else st2
          | none => st2

/-- `scrape_book` from the seed URL and a fresh state. -/
def scrapeBook (fetch : String → Option Node) (dl : String → String → Option String)
    (baseUrl : String) (maxPages : Option Nat) (fuel : Nat) (startUrl : String) :
    CrawlState :=
  scrapeLoop fetch dl baseUrl maxPages fuel initialCrawlState startUrl 0

/-- C10's invariant: every TOC entry carries the packaging-time file name of
the chapter it was created for, and that chapter's title. -/
def navOk (st : CrawlState) : Prop :=
  ∀ e ∈ st.nav, ∃ i ch, st.chapters.get? i = some ch ∧
    e.fileName = packagingFileName i ∧ e.title = ch.title

/-- An external resolver that always fails (every asset download fails). -/
def dlNoneRes : String → String → Option String := fun _ _ => none

/- Concrete instances for claims C3, C4, C5, C8, C9, C10. -/

/-- A page at `/partie-3/` whose fragment has text but no title heading: its
title resolves to "Chapter 3" via the full (French-inclusive) pattern. -/
def c3soup : Node :=
  .elem "html" [] [.elem "body" [] [.elem "div" [("class", "row")] [.text "Contenu"]]]

def c3url : String := "http://b.com/partie-3/"

/-- A page at `/chapter-2/` used as the amended-claim witness. -/
def c3wsoup : Node :=
  .elem "html" [] [.elem "body" [] [.elem "div" [("class", "row")] [.text "Body text"]]]

def c3wurl : String := "http://b.com/chapter-2/"

/-- A qualifying `»` link whose target shares the current path, differs in
query, and carries a fragment. -/
def c8link : Node := .elem "a" [("href", "http://b.com/page?x=2#top")] [.text "»"]

def c8soup : Node :=
  .elem "html" [] [.elem "body" [] [.elem "div" [("class", "text-center")] [c8link]]]

def c8url : String := "http://b.com/page?x=1"

/-- The candidate as tier 1 sees it (inside a `text-center` container). -/
def c8lc : LinkCtx := ⟨c8link, [.elem "div" [("class", "text-center")] [c8link]]⟩

/-- A page with no meaningful content (no `.row` divs) but a qualifying next
link inside a `text-center` div. -/
def c5soup : Node :=
  .elem "html" []
    [.elem "body" []
      [.elem "div" [("class", "text-center")]
        [.elem "a" [("href", "/p2")] [.text "»"]]]]

def c5url : String := "http://b.com/p1"

def c5fetch : String → Option Node := fun u => if u == c5url then some c5soup else none

/-- A single-chapter site for the C10 witness crawl. -/
def c10soup : Node :=
  .elem "html" [] [.elem "body" [] [.elem "div" [("class", "row")] [.text "Some content"]]]

def c10url : String := "http://b.com/chapter-1/"

def c10fetch : String → Option Node := fun u => if u == c10url then some c10soup else none

/-- A fragment holding one image whose download fails and one `data:` image
(kept), for the C9 witness. -/
def c9frag : Node :=
  .elem "div" []
    [.elem "img" [("src", "http://b.com/gone.png")] [],
     .elem "img" [("src", "data:image/png;base64,AA==")] []]

def c9dl : String → String → Option String := fun _ _ => none

/-- A legitimate image after the image pass: its `src` is a `data:` URI or a
path returned by a successful download. -/
def imgOk (dl : String → String → Option String) (baseUrl : String) (e : Node) : Prop :=
  strStartsWith ((getAttr e "src").getD "") "data:" = true ∨
  ∃ s0, downloadResource dl baseUrl s0 "images" = some ((getAttr e "src").getD "")

-- ===================================================================
-- THEOREMS
-- ===================================================================

theorem collectRows_of_first_marker (m : Node) (before after : List Node)
    (h : m ∉ before) :
    collectRows (some m) (before ++ m :: after) = before.filter keepRow := by
  induction before with
  | nil => simp [collectRows]
  | cons r rs ih =>
    have hne : ¬(some m = some r) := by
      simp only [Option.some.injEq]
      exact fun he => h (he ▸ List.mem_cons_self r rs)
    have hrs : m ∉ rs := fun hm => h (List.mem_cons_of_mem r hm)
    simp only [List.cons_append, collectRows, if_neg hne, List.append_eq]
    by_cases hk : keepRow r
    · rw [if_pos hk, ih hrs, List.filter_cons_of_pos hk]
    · rw [if_neg hk, ih hrs, List.filter_cons_of_neg (by simpa using hk)]

/-- C1 (amended): when the nominated end marker occurs among the row
containers, the Content Slicer's output is built exactly from the qualifying
rows strictly before the marker's first occurrence, and the marker row itself
is excluded. -/
theorem slicer_boundary_exact (soup m : Node) (before after : List Node)
    (hm : endMarkerOf soup = some m)
    (hrows : rowDivsOf soup = before ++ m :: after)
    (hfirst : m ∉ before) :
    extractContentSlice soup = .elem "div" [] (cleanupChildren (before.filter keepRow)) ∧
      m ∉ before.filter keepRow := by
  constructor
  · unfold extractContentSlice
    rw [hm, hrows, collectRows_of_first_marker m before after hfirst]
  · intro hmem
    exact hfirst (List.mem_of_mem_filter hmem)

/-- C1 witness: a concrete page whose markers are row containers; the slice
stops exactly before the marker. -/
theorem slicer_boundary_exact_witness :
    extractContentSlice c1wsoup =
      .elem "div" [] (cleanupChildren ([c1wrowA].filter keepRow)) ∧
      wrDiv "x" ∉ [c1wrowA].filter keepRow :=
  slicer_boundary_exact c1wsoup (wrDiv "x") [c1wrowA] [wrDiv "y", wrDiv "z"]
    (by decide) (by decide) (by decide)

/-- C1 counterexample: the third-from-last `text-center` div of `c1soup` is
not a row container; the returned fragment contains a row container that sits
strictly after the end marker in document order, contradicting the claim that
no row at or after the marker is ever included. -/
theorem slicer_boundary_counterexample :
    endMarkerOf c1soup = some (tcDiv "a") ∧
    extractContentSlice c1soup = .elem "div" [] [c1row] ∧
    isDivWithClass "row" c1row = true ∧
    (elemsOf c1soup).findIdx (fun x => decide (x = tcDiv "a")) <
      (elemsOf c1soup).findIdx (fun x => decide (x = c1row)) := by
  decide

/- ===== Text-content lemmas ===== -/

theorem strConcat_append (l1 l2 : List String) :
    strConcat (l1 ++ l2) = strConcat l1 ++ strConcat l2 := by
  induction l1 with
  | nil => simp [strConcat]
  | cons s rest ih => simp [strConcat, ih, String.append_assoc]

theorem string_append_eq_empty (a b : String) : a ++ b = "" ↔ a = "" ∧ b = "" := by
  constructor
  · intro h
    have hd : a.data ++ b.data = [] := congrArg String.data h
    rcases List.append_eq_nil.mp hd with ⟨ha, hb⟩
    exact ⟨String.ext ha, String.ext hb⟩
  · rintro ⟨rfl, rfl⟩; rfl

theorem strConcat_eq_empty_iff (l : List String) :
    strConcat l = "" ↔ ∀ s ∈ l, s = "" := by
  induction l with
  | nil => simp [strConcat]
  | cons s rest ih => simp [strConcat, string_append_eq_empty, ih]

theorem trimStr_eq_empty_iff (s : String) :
    trimStr s = "" ↔ ∀ c ∈ s.data, wsChar c := by
  unfold trimStr dropTrail
  rw [show ("" : String) = ⟨[]⟩ from rfl, String.ext_iff]
  simp only [List.reverse_eq_nil_iff, List.dropWhile_eq_nil_iff, List.mem_reverse]
  constructor
  · intro h c hc
    rcases List.mem_append.mp
        ((List.takeWhile_append_dropWhile (p := wsChar) (l := s.data)) ▸ hc) with h1 | h2
    · exact List.mem_takeWhile_imp h1
    · exact h _ h2
  · intro h c hc
    exact h c ((List.dropWhile_sublist wsChar).subset hc)

theorem stripAllWs_eq_empty_iff (s : String) :
    stripAllWs s = "" ↔ ∀ c ∈ s.data, wsChar c := by
  unfold stripAllWs
  rw [show ("" : String) = ⟨[]⟩ from rfl, String.ext_iff]
  simp [List.filter_eq_nil_iff]

theorem getTextStrip_empty_iff (n : Node) : getTextStrip n = "" ↔ textNoWs n = "" := by
  unfold getTextStrip textNoWs
  rw [strConcat_eq_empty_iff, strConcat_eq_empty_iff]
  constructor
  · intro h s hs
    rcases List.mem_map.mp hs with ⟨t, ht, rfl⟩
    exact (stripAllWs_eq_empty_iff t).mpr
      ((trimStr_eq_empty_iff t).mp (h _ (List.mem_map_of_mem _ ht)))
  · intro h s hs
    rcases List.mem_map.mp hs with ⟨t, ht, rfl⟩
    exact (trimStr_eq_empty_iff t).mpr
      ((stripAllWs_eq_empty_iff t).mp (h _ (List.mem_map_of_mem _ ht)))

theorem textNodes_go_append (l1 l2 : List Node) :
    textNodes.go (l1 ++ l2) = textNodes.go l1 ++ textNodes.go l2 := by
  induction l1 with
  | nil => simp [textNodes.go]
  | cons n ns ih => simp [textNodes.go, ih]

theorem textNoWsL_append (l1 l2 : List Node) :
    textNoWsL (l1 ++ l2) = textNoWsL l1 ++ textNoWsL l2 := by
  unfold textNoWsL
  rw [textNodes_go_append, List.map_append, strConcat_append]

theorem textNoWsL_nil : textNoWsL [] = "" := rfl

theorem textNoWs_elem (t : String) (a : List (String × String)) (ch : List Node) :
    textNoWs (.elem t a ch) = textNoWsL ch := rfl

theorem textNoWsL_singleton (n : Node) : textNoWsL [n] = textNoWs n := by
  unfold textNoWsL textNoWs
  simp [textNodes.go]

theorem textNoWsL_cons (n : Node) (l : List Node) :
    textNoWsL (n :: l) = textNoWs n ++ textNoWsL l := by
  have := textNoWsL_append [n] l
  simpa [textNoWsL_singleton] using this

theorem accText_push (acc : Option (List Node)) (n : Node) :
    accText (some (accPush acc n)) = accText acc ++ textNoWs n := by
  cases acc with
  | none => simp [accText, accPush, textNoWsL_singleton]
  | some ps => simp [accText, accPush, textNoWsL_append, textNoWsL_singleton]

theorem flushAcc_textNoWs (acc : Option (List Node)) :
    textNoWsL (flushAcc acc) = accText acc := by
  cases acc with
  | none => rfl
  | some ps => simp [flushAcc, accText, textNoWsL_singleton, mkP, textNoWs_elem]

theorem empty_append_str (s : String) : "" ++ s = s := by
  apply String.ext
  simp [show ∀ t u : String, (t ++ u).data = t.data ++ u.data from fun _ _ => rfl]

/-- The Paragraph Wrapper preserves non-whitespace text content: the nodes it
emits carry exactly the accumulator's text followed by the source children's
text. -/
theorem wrap_go_textNoWs : (cs : List Node) → (acc : Option (List Node)) →
    textNoWsL (wrapNode.go cs acc) = accText acc ++ textNoWsL cs
  | [], none => by simp [wrapNode.go, accText, textNoWsL_nil]
  | [], some ps => by
    simp only [wrapNode.go]
    by_cases h : hasStrippedText (mkP ps)
    · rw [if_pos h]
      simp [accText, textNoWsL_singleton, mkP, textNoWs_elem, textNoWsL_nil,
            String.append_empty]
    · rw [if_neg h]
      have h0 : getTextStrip (mkP ps) = "" := by
        cases hb : (getTextStrip (mkP ps)).isEmpty with
        | false => exact absurd (by simp [hasStrippedText, hb]) h
        | true => exact (String.isEmpty_iff _).mp hb
      have h1 : textNoWsL ps = "" := by
        have h2 := (getTextStrip_empty_iff (mkP ps)).mp h0
        simpa [mkP, textNoWs_elem] using h2
      simp [accText, h1, textNoWsL_nil]
  | .text s :: cs, acc => by
    by_cases h : (trimStr s).isEmpty
    · have hts : trimStr s = "" := (String.isEmpty_iff _).mp h
      have hss : stripAllWs s = "" :=
        (stripAllWs_eq_empty_iff s).mpr ((trimStr_eq_empty_iff s).mp hts)
      have ih := wrap_go_textNoWs cs acc
      simp [wrapNode.go, h, ih, textNoWsL_cons, textNoWs, textNodes, strConcat, hss,
            empty_append_str]
    · have ih := wrap_go_textNoWs cs (some (accPush acc (.text s)))
      simp only [wrapNode.go, h, Bool.false_eq_true, if_false, ih, accText_push]
      simp [textNoWsL_cons, textNoWs, textNodes, strConcat, String.append_assoc]
  | .comment s :: cs, acc => by
    have ih := wrap_go_textNoWs cs acc
    simp [wrapNode.go, ih, textNoWsL_cons, textNoWs, textNodes, strConcat, empty_append_str]
  | .elem t a ch :: cs, acc => by
    have ihcs := wrap_go_textNoWs cs none
    by_cases hb : isBlockTag t
    · by_cases hd : t == "div"
      · have ihch := wrap_go_textNoWs ch none
        simp [wrapNode.go, hb, hd, textNoWsL_append, flushAcc_textNoWs, textNoWsL_cons,
              wrapNode, textNoWs_elem, ihch, ihcs, accText, empty_append_str,
              String.append_assoc]
      · simp [wrapNode.go, hb, hd, textNoWsL_append, flushAcc_textNoWs, textNoWsL_cons,
              ihcs, accText, empty_append_str, String.append_assoc]
    · by_cases hi : t == "img" ||
          (t == "a" && hasAttrB (.elem t a ch) "href" && hasImgDesc (.elem t a ch))
      · simp [wrapNode.go, hb, hi, textNoWsL_append, flushAcc_textNoWs, textNoWsL_cons,
              ihcs, accText, empty_append_str, String.append_assoc]
      · have ih := wrap_go_textNoWs cs (some (accPush acc (.elem t a ch)))
        simp only [wrapNode.go, hb, Bool.false_eq_true, if_false, hi, ih, accText_push]
        simp [textNoWsL_cons, String.append_assoc]

/- ===== Restructurer lemmas ===== -/

theorem tdOf_textNoWs (c : Node) (h : c.tagOf = "div") :
    textNoWs (tdOf c) = textNoWs c := by
  cases c with
  | elem t a ch =>
    show textNoWsL (wrapContentInParagraph (.elem t a ch)) = textNoWsL ch
    unfold wrapContentInParagraph wrapChildren
    rw [wrap_go_textNoWs]
    rfl
  | text s => simp [Node.tagOf] at h
  | comment s => simp [Node.tagOf] at h

theorem bilingual_cols (r : Node) (h : isBilingualRow r = true) :
    ∃ c1 c2, colsOf r = [c1, c2] := by
  unfold isBilingualRow at h
  rcases hc : colsOf r with _ | ⟨c1, _ | ⟨c2, _ | ⟨c3, cs⟩⟩⟩ <;> rw [hc] at h <;>
    simp at h
  exact ⟨c1, c2, rfl⟩

theorem mkTrOpt_of_bilingual (r : Node) (h : isBilingualRow r = true) :
    mkTrOpt r = some (trOfRow r) := by
  obtain ⟨c1, c2, hc⟩ := bilingual_cols r h
  simp [mkTrOpt, trOfRow, hc]

theorem filterMap_mkTrOpt_eq_map (rows : List Node)
    (h : ∀ r ∈ rows, isBilingualRow r = true) :
    rows.filterMap mkTrOpt = rows.map trOfRow := by
  induction rows with
  | nil => rfl
  | cons r rs ih =>
    have hr := mkTrOpt_of_bilingual r (h r (List.mem_cons_self r rs))
    simp [List.filterMap_cons, hr, ih (fun x hx => h x (List.mem_cons_of_mem r hx))]

theorem flushGroup_all_bilingual (r0 : Node) (rs : List Node)
    (h : ∀ r ∈ r0 :: rs, isBilingualRow r = true) :
    flushGroup (r0 :: rs) = [.elem "table" tableAttrs ((r0 :: rs).map trOfRow)] := by
  have hfm := filterMap_mkTrOpt_eq_map (r0 :: rs) h
  unfold flushGroup mkTable
  rw [hfm]
  simp

theorem restructureAux_all_bilingual (g : List Node)
    (hg : ∀ r ∈ g, isBilingualRow r = true) :
    ∀ (g' xs : List Node), restructureAux g' (g ++ xs) = restructureAux (g' ++ g) xs := by
  induction g with
  | nil => intro g' xs; simp
  | cons r rs ih =>
    intro g' xs
    have hr := hg r (List.mem_cons_self r rs)
    simp only [List.cons_append, restructureAux, hr, if_true, List.append_eq]
    rw [ih (fun x hx => hg x (List.mem_cons_of_mem r hx)) (g' ++ [r]) xs]
    simp [List.append_assoc]

theorem restructureAux_split (x : Node) (hx : isBilingualRow x = false) :
    ∀ (pre zs g : List Node), restructureAux g (pre ++ x :: zs) =
      restructureAux g (pre ++ [x]) ++ restructureChildren zs := by
  intro pre
  induction pre with
  | nil =>
    intro zs g
    simp [restructureAux, hx, restructureChildren, flushGroup, List.append_assoc]
  | cons p ps ih =>
    intro zs g
    by_cases hp : isBilingualRow p
    · simp only [List.cons_append, restructureAux, hp, if_true]
      exact ih zs (g ++ [p])
    · simp only [List.cons_append, restructureAux, hp, Bool.false_eq_true, if_false,
          List.append_eq]
      rw [ih zs []]
      simp [List.append_assoc]

theorem restructureChildren_rows_head (rows post : List Node)
    (hrows : ∀ r ∈ rows, isBilingualRow r = true) (hne : rows ≠ [])
    (hpost : post = [] ∨ ∃ q qs, post = q :: qs ∧ isBilingualRow q = false) :
    restructureChildren (rows ++ post) =
      .elem "table" tableAttrs (rows.map trOfRow) :: restructureChildren post := by
  rcases rows with _ | ⟨r0, rs⟩
  · exact absurd rfl hne
  unfold restructureChildren
  rw [restructureAux_all_bilingual (r0 :: rs) hrows [] post]
  simp only [List.nil_append]
  rcases hpost with rfl | ⟨q, qs, rfl, hq⟩
  · rw [show restructureAux (r0 :: rs) [] = flushGroup (r0 :: rs) from rfl,
        flushGroup_all_bilingual r0 rs hrows]
    rfl
  · simp only [restructureAux, hq, Bool.false_eq_true, if_false,
        flushGroup_all_bilingual r0 rs hrows]
    simp [restructureAux, flushGroup]

theorem colsOf_tag (r c : Node) (h : c ∈ colsOf r) : c.tagOf = "div" := by
  unfold colsOf at h
  have hp := List.of_mem_filter h
  simp only [Bool.and_eq_true, beq_iff_eq] at hp
  exact hp.1

/-- C2: every maximal run of bilingual rows among the fragment's direct
children becomes exactly one table, one `tr` per input row in input order,
with the non-whitespace text of each column preserved in its cell; a run of
length one still yields a one-row table. -/
theorem restructurer_run_to_table (pre rows post : List Node)
    (hrows : ∀ r ∈ rows, isBilingualRow r = true) (hne : rows ≠ [])
    (hpre : pre = [] ∨ ∃ ps p, pre = ps ++ [p] ∧ isBilingualRow p = false)
    (hpost : post = [] ∨ ∃ q qs, post = q :: qs ∧ isBilingualRow q = false) :
    restructureChildren (pre ++ rows ++ post) =
      restructureChildren pre ++
        .elem "table" tableAttrs (rows.map trOfRow) :: restructureChildren post ∧
    ∀ r ∈ rows, ∃ c1 c2, colsOf r = [c1, c2] ∧
      trOfRow r = .elem "tr" [] [tdOf c1, tdOf c2] ∧
      textNoWs (tdOf c1) = textNoWs c1 ∧ textNoWs (tdOf c2) = textNoWs c2 := by
  constructor
  · rcases hpre with rfl | ⟨ps, p, rfl, hp⟩
    · simp only [List.nil_append]
      rw [restructureChildren_rows_head rows post hrows hne hpost]
      rfl
    · have hsplit := restructureAux_split p hp ps (rows ++ post) []
      calc restructureChildren ((ps ++ [p]) ++ rows ++ post)
          = restructureAux [] (ps ++ p :: (rows ++ post)) := by
            simp [restructureChildren, List.append_assoc]
        _ = restructureAux [] (ps ++ [p]) ++ restructureChildren (rows ++ post) := hsplit
        _ = restructureChildren (ps ++ [p]) ++
              (.elem "table" tableAttrs (rows.map trOfRow) :: restructureChildren post) := by
            rw [restructureChildren_rows_head rows post hrows hne hpost]; rfl
        _ = restructureChildren (ps ++ [p]) ++
              .elem "table" tableAttrs (rows.map trOfRow) :: restructureChildren post := by
            simp
  · intro r hr
    obtain ⟨c1, c2, hc⟩ := bilingual_cols r (hrows r hr)
    refine ⟨c1, c2, hc, ?_, ?_, ?_⟩
    · simp [trOfRow, mkTrOpt, hc]
    · exact tdOf_textNoWs c1 (colsOf_tag r c1 (by rw [hc]; simp))
    · exact tdOf_textNoWs c2 (colsOf_tag r c2 (by rw [hc]; simp))

/-- C2 witness: a single bilingual row (run of length one) becomes a one-row
table with both columns' text preserved. -/
theorem restructurer_run_to_table_witness :
    restructureChildren ([] ++ [bilRowEx] ++ []) =
      restructureChildren [] ++
        .elem "table" tableAttrs ([bilRowEx].map trOfRow) :: restructureChildren [] ∧
    ∀ r ∈ [bilRowEx], ∃ c1 c2, colsOf r = [c1, c2] ∧
      trOfRow r = .elem "tr" [] [tdOf c1, tdOf c2] ∧
      textNoWs (tdOf c1) = textNoWs c1 ∧ textNoWs (tdOf c2) = textNoWs c2 :=
  restructurer_run_to_table [] [bilRowEx] []
    (by decide) (by decide) (Or.inl rfl) (Or.inl rfl)

/-- C6: the Paragraph Wrapper is idempotent on already-wrapped content — a
source whose single child is a paragraph with text appends that paragraph
unchanged (no extra nesting). -/
theorem wrapper_idempotent_on_paragraph (a : List (String × String)) (ps : List Node)
    (h : hasStrippedText (.elem "p" a ps) = true) :
    wrapChildren [.elem "p" a ps] none = [.elem "p" a ps] := by
  unfold wrapChildren
  simp [wrapNode.go, isBlockTag, flushAcc]

/-- C6 witness: wrapping `<p class="lead">already wrapped</p>` yields the
same paragraph node. -/
theorem wrapper_idempotent_on_paragraph_witness :
    wrapChildren [c6para] none = [c6para] :=
  wrapper_idempotent_on_paragraph [("class", "lead")] [.text "already wrapped"] (by decide)

/-- C7 counterexample: a non-row `div` child containing a bilingual row is
appended verbatim by the Restructurer — its own children are *not*
recursively restructured (restructuring them would change them). -/
theorem restructurer_nested_div_counterexample :
    restructureChildren [c7div] = [c7div] ∧
    restructureChildren c7div.childrenOf ≠ c7div.childrenOf := by decide

/-- C7 (amended): a direct child that is not a bilingual row — nested divs
included — is appended verbatim, unchanged. -/
theorem restructurer_nonrow_verbatim (x : Node) (xs : List Node)
    (hx : isBilingualRow x = false) :
    restructureChildren (x :: xs) = x :: restructureChildren xs := by
  simp [restructureChildren, restructureAux, hx, flushGroup]

/-- C7 amended witness: the wrapper div of the counterexample is emitted
verbatim. -/
theorem restructurer_nonrow_verbatim_witness :
    restructureChildren [c7div] = c7div :: restructureChildren [] :=
  restructurer_nonrow_verbatim c7div [] (by decide)

/- ===== Next-Page Locator theorems (C4, C8) ===== -/

theorem strIsEmpty_iff (s : String) : strIsEmpty s = true ↔ s = "" := by
  unfold strIsEmpty
  rw [String.ext_iff]
  cases s with
  | mk data => cases data <;> simp [List.isEmpty]

theorem tier1Scan_eq_find (baseUrl currentUrl : String) :
    ∀ links : List LinkCtx, tier1Scan baseUrl currentUrl links =
      (links.find? (tier1Accepts baseUrl currentUrl)).map
        (fun lc => resolveHref currentUrl lc.node) := by
  intro links
  induction links with
  | nil => rfl
  | cons lc rest ih =>
    cases h1 : coarseNextTest lc <;>
      cases h2 : sameBaseDiffTest baseUrl currentUrl lc <;>
      cases h3 : samePageAnchorTest currentUrl lc <;>
      cases h4 : containerTest lc <;>
      cases h5 : clearTextTest lc <;>
      simp [tier1Scan, tier1Accepts, h1, h2, h3, h4, h5, List.find?, ih]

theorem tier2Scan_eq_find (baseUrl currentUrl curPathLower : String) (g0 : List Char)
    (n : Nat) :
    ∀ links : List LinkCtx, tier2Scan baseUrl currentUrl curPathLower g0 n links =
      (links.find? (tier2Qualifies baseUrl currentUrl curPathLower g0 n)).map
        (fun lc => resolveHref currentUrl lc.node) := by
  intro links
  induction links with
  | nil => rfl
  | cons lc rest ih =>
    cases hq : tier2Qualifies baseUrl currentUrl curPathLower g0 n lc <;>
      simp [tier2Scan, hq, List.find?, ih]

/-- C4: the textual/relation tier strictly precedes the numeric tier — the
located URL is the first tier-1-accepted link's target whenever one exists,
and exactly the numeric tier's first qualifying link (same marker form with
value N+1 and identical path part before the marker) otherwise. -/
theorem nextpage_tier_order (baseUrl : String) (soup : Node) (currentUrl : String) :
    findNextPageUrl baseUrl soup currentUrl =
      (match tier1First baseUrl currentUrl (allLinksOf soup) with
       | some u => some u
       | none => numericTierFirst baseUrl currentUrl (allLinksOf soup)) := by
  simp only [findNextPageUrl, tier1First, numericTierFirst]
  rw [tier1Scan_eq_find]
  cases (allLinksOf soup).find? (tier1Accepts baseUrl currentUrl) with
  | some lc => rfl
  | none =>
    cases hm : searchMarker kwsFull (toLowerStr (urlparseStr currentUrl).path).data with
    | none => simp [hm]
    | some p =>
      cases p with
      | mk g0 n => simp [hm, tier2Scan_eq_find]

/-- C8 counterexample: the only link of `c8soup` passes the coarse test, the
origin-and-difference test and the container refinement, resolves to the
current path with a *different query* and a fragment — yet the locator
rejects it under the same-page-anchor rule and finds nothing. -/
theorem nextpage_anchor_query_counterexample :
    findNextPageUrl "http://b.com" c8soup c8url = none ∧
    (allLinksOf c8soup).length = 1 ∧
    (allLinksOf c8soup).all (fun lc =>
      coarseNextTest lc && sameBaseDiffTest "http://b.com" c8url lc && containerTest lc &&
      ((urlparseStr (resolveHref c8url lc.node)).path == (urlparseStr c8url).path) &&
      ((urlparseStr (resolveHref c8url lc.node)).query != (urlparseStr c8url).query)) =
      true := by
  decide

/-- C8 (amended): among candidates that pass the coarse textual test, the
origin-and-difference test and the container/clear-text refinement, tier 1
rejects exactly those whose resolved target has the current URL's path and a
non-empty fragment — the query string is not consulted. -/
theorem nextpage_anchor_reject_iff (baseUrl currentUrl : String) (lc : LinkCtx)
    (h1 : coarseNextTest lc = true)
    (h2 : sameBaseDiffTest baseUrl currentUrl lc = true)
    (h3 : containerTest lc = true ∨ clearTextTest lc = true) :
    tier1Accepts baseUrl currentUrl lc = false ↔
      ((urlparseStr (resolveHref currentUrl lc.node)).path = (urlparseStr currentUrl).path ∧
        (urlparseStr (resolveHref currentUrl lc.node)).fragment ≠ "") := by
  have h3' : (containerTest lc || clearTextTest lc) = true := by
    rcases h3 with h | h <;> simp [h]
  unfold tier1Accepts
  rw [h1, h2, h3']
  unfold samePageAnchorTest
  constructor
  · intro h
    simp only [Bool.true_and, Bool.and_true, Bool.not_eq_false'] at h
    simp only [Bool.and_eq_true, beq_iff_eq, Bool.not_eq_true'] at h
    refine ⟨h.1, ?_⟩
    intro hfr
    rw [hfr] at h
    exact absurd ((strIsEmpty_iff "").mpr rfl) (by simp [h.2])
  · rintro ⟨hp, hf⟩
    have he : strIsEmpty (urlparseStr (resolveHref currentUrl lc.node)).fragment = false := by
      cases hb : strIsEmpty (urlparseStr (resolveHref currentUrl lc.node)).fragment with
      | false => rfl
      | true => exact absurd ((strIsEmpty_iff _).mp hb) hf
    simp [hp, he]

/-- C8 amended witness: the `c8soup` candidate is rejected, and indeed its
target carries the current path with a non-empty fragment. -/
theorem nextpage_anchor_reject_iff_witness :
    tier1Accepts "http://b.com" c8url c8lc = false ↔
      ((urlparseStr (resolveHref c8url c8lc.node)).path = (urlparseStr c8url).path ∧
        (urlparseStr (resolveHref c8url c8lc.node)).fragment ≠ "") :=
  nextpage_anchor_reject_iff "http://b.com" c8url c8lc (by decide) (by decide)
    (Or.inl (by decide))

/- ===== Chapter Classifier theorems (C3) ===== -/

theorem processPage_of_empty (dl : String → String → Option String) (baseUrl : String)
    (st : CrawlState) (currentUrl : String) (pageCount : Nat) (soup : Node)
    (hempty : hasStrippedText (extractContentSlice soup) = false) :
    processPage dl baseUrl st currentUrl pageCount soup =
      (st, none, findNextPageUrl baseUrl soup currentUrl) := by
  simp only [processPage]
  rw [hempty]
  rfl

theorem processPage_of_content (dl : String → String → Option String) (baseUrl : String)
    (st : CrawlState) (currentUrl : String) (pageCount : Nat) (soup : Node)
    (hcont : hasStrippedText (extractContentSlice soup) = true) :
    processPage dl baseUrl st currentUrl pageCount soup =
      (⟨st.chapters ++ [pageRecord dl baseUrl st.chapters currentUrl pageCount soup],
        (if tocUrlFlag currentUrl &&
            isChapterTitlePat (pageRecord dl baseUrl st.chapters currentUrl pageCount soup).title
         then st.nav ++
           [⟨(pageRecord dl baseUrl st.chapters currentUrl pageCount soup).title,
             navFileName
               (st.chapters ++
                 [pageRecord dl baseUrl st.chapters currentUrl pageCount soup]).length⟩]
         else st.nav),
        st.visited⟩,
       some (pageRecord dl baseUrl st.chapters currentUrl pageCount soup),
       findNextPageUrl baseUrl soup currentUrl) := by
  simp only [processPage]
  rw [hcont]
  rfl

theorem processPage_content_state (dl : String → String → Option String) (baseUrl : String)
    (st : CrawlState) (currentUrl : String) (pageCount : Nat) (soup : Node)
    (hcont : hasStrippedText (extractContentSlice soup) = true) :
    (processPage dl baseUrl st currentUrl pageCount soup).1 =
      ⟨st.chapters ++ [pageRecord dl baseUrl st.chapters currentUrl pageCount soup],
       (if tocUrlFlag currentUrl &&
           isChapterTitlePat (pageRecord dl baseUrl st.chapters currentUrl pageCount soup).title
        then st.nav ++
          [⟨(pageRecord dl baseUrl st.chapters currentUrl pageCount soup).title,
            navFileName
              (st.chapters ++
                [pageRecord dl baseUrl st.chapters currentUrl pageCount soup]).length⟩]
        else st.nav),
       st.visited⟩ := by
  rw [processPage_of_content dl baseUrl st currentUrl pageCount soup hcont]

/-- C3 counterexample: the page at `/partie-3/` resolves its title to
"Chapter 3" (the URL matches the full `/{c|chapter|chapitre|part|partie}-?N`
pattern and the title matches the Chapter-N pattern, so the claim demands a
TOC flag), yet no TOC entry is created: the flag's URL check only knows
`c|chapter|part`. -/
theorem chapter_flag_counterexample :
    ((processPage dlNoneRes "http://b.com" initialCrawlState c3url 1 c3soup).2.1).map
        (fun c => c.title) = some "Chapter 3" ∧
    (processPage dlNoneRes "http://b.com" initialCrawlState c3url 1 c3soup).1.nav = [] ∧
    specChapterFlag c3url "Chapter 3" = true := by
  decide

/-- C3 (amended): a page that yields a chapter record is flagged as a TOC
chapter iff its URL path matches the reduced `/(?:c|chapter|part)-?N`
pattern (French markers `chapitre`/`partie` are not part of the URL check)
*and* its resolved title matches the `^(chapter|part)\s*\d+` pattern; only
then is a nav entry appended. -/
theorem chapter_flag_amended (dl : String → String → Option String) (baseUrl : String)
    (st : CrawlState) (currentUrl : String) (pageCount : Nat) (soup : Node) (T : String)
    (h : ((processPage dl baseUrl st currentUrl pageCount soup).2.1).map
        (fun c => c.title) = some T) :
    (processPage dl baseUrl st currentUrl pageCount soup).1.nav =
      (if tocUrlFlag currentUrl && isChapterTitlePat T
       then st.nav ++ [⟨T, navFileName (st.chapters.length + 1)⟩]
       else st.nav) := by
  cases hempty : hasStrippedText (extractContentSlice soup) with
  | false =>
    rw [processPage_of_empty dl baseUrl st currentUrl pageCount soup hempty] at h
    simp at h
  | true =>
    rw [processPage_of_content dl baseUrl st currentUrl pageCount soup hempty] at h ⊢
    simp only [Option.map_some', Option.some.injEq] at h
    subst h
    simp [List.length_append]

/-- C3 amended witness: a `/chapter-2/` page titled "Chapter 2" appends the
nav entry with the length-derived file name. -/
theorem chapter_flag_amended_witness :
    (processPage dlNoneRes "http://b.com" initialCrawlState c3wurl 1 c3wsoup).1.nav =
      (if tocUrlFlag c3wurl && isChapterTitlePat "Chapter 2"
       then initialCrawlState.nav ++
         [⟨"Chapter 2", navFileName (initialCrawlState.chapters.length + 1)⟩]
       else initialCrawlState.nav) :=
  chapter_flag_amended dlNoneRes "http://b.com" initialCrawlState c3wurl 1 c3wsoup
    "Chapter 2" (by decide)

/- ===== Crawl theorems (C5) ===== -/

/-- C5: a page whose sliced fragment has no non-whitespace text yields no
chapter record and leaves chapters and nav untouched, the next URL is still
the one discovered from the original tree, and the crawl recurses on it when
present — stopping only when it is `none`. -/
theorem empty_page_skipped_crawl_continues
    (fetch : String → Option Node) (dl : String → String → Option String)
    (baseUrl : String) (maxPages : Option Nat) (fuel : Nat) (st : CrawlState)
    (currentUrl : String) (pageCount : Nat) (soup : Node)
    (hmax : ltMaxPages pageCount maxPages = true)
    (hvis : st.visited.contains currentUrl = false)
    (hfetch : fetch currentUrl = some soup)
    (hempty : hasStrippedText (extractContentSlice soup) = false) :
    processPage dl baseUrl ⟨st.chapters, st.nav, st.visited ++ [currentUrl]⟩ currentUrl
        (pageCount + 1) soup =
      (⟨st.chapters, st.nav, st.visited ++ [currentUrl]⟩, none,
        findNextPageUrl baseUrl soup currentUrl) ∧
    scrapeLoop fetch dl baseUrl maxPages (fuel + 1) st currentUrl pageCount =
      (match findNextPageUrl baseUrl soup currentUrl with
       | some nu => scrapeLoop fetch dl baseUrl maxPages fuel
           ⟨st.chapters, st.nav, st.visited ++ [currentUrl]⟩ nu (pageCount + 1)
       | none => ⟨st.chapters, st.nav, st.visited ++ [currentUrl]⟩) := by
  refine ⟨processPage_of_empty dl baseUrl ⟨st.chapters, st.nav, st.visited ++ [currentUrl]⟩
    currentUrl (pageCount + 1) soup hempty, ?_⟩
  cases hnext : findNextPageUrl baseUrl soup currentUrl with
  | some nu =>
    have hp := processPage_of_empty dl baseUrl
      ⟨st.chapters, st.nav, st.visited ++ [currentUrl]⟩ currentUrl (pageCount + 1) soup hempty
    rw [hnext] at hp
    simp only [scrapeLoop, hmax, Bool.not_true, Bool.false_eq_true, if_false, hvis, hfetch,
      hp]
  | none =>
    have hp := processPage_of_empty dl baseUrl
      ⟨st.chapters, st.nav, st.visited ++ [currentUrl]⟩ currentUrl (pageCount + 1) soup hempty
    rw [hnext] at hp
    simp only [scrapeLoop, hmax, Bool.not_true, Bool.false_eq_true, if_false, hvis, hfetch,
      hp]

/-- C5 witness: a concrete empty-content page with a `»` next link — no
record is appended and the crawl moves to the discovered URL. -/
theorem empty_page_skipped_crawl_continues_witness :
    processPage dlNoneRes "http://b.com"
        ⟨initialCrawlState.chapters, initialCrawlState.nav,
          initialCrawlState.visited ++ [c5url]⟩ c5url (0 + 1) c5soup =
      (⟨initialCrawlState.chapters, initialCrawlState.nav,
          initialCrawlState.visited ++ [c5url]⟩, none,
        findNextPageUrl "http://b.com" c5soup c5url) ∧
    scrapeLoop c5fetch dlNoneRes "http://b.com" none (1 + 1) initialCrawlState c5url 0 =
      (match findNextPageUrl "http://b.com" c5soup c5url with
       | some nu => scrapeLoop c5fetch dlNoneRes "http://b.com" none 1
           ⟨initialCrawlState.chapters, initialCrawlState.nav,
             initialCrawlState.visited ++ [c5url]⟩ nu (0 + 1)
       | none => ⟨initialCrawlState.chapters, initialCrawlState.nav,
           initialCrawlState.visited ++ [c5url]⟩) :=
  empty_page_skipped_crawl_continues c5fetch dlNoneRes "http://b.com" none 1
    initialCrawlState c5url 0 c5soup (by decide) (by decide) (by decide) (by decide)

/- ===== Resource-failure theorems (C9) ===== -/

theorem getAttr_setAttr (a : List (String × String)) (k v : String)
    (h : (a.find? (fun pr => pr.1 == k)).isSome = true) :
    ((setAttr a k v).find? (fun pr => pr.1 == k)).map (fun pr => pr.2) = some v := by
  induction a with
  | nil => simp [List.find?] at h
  | cons pr rest ih =>
    by_cases hk : (pr.1 == k) = true
    · simp [setAttr, List.find?, hk]
    · have h' : (rest.find? (fun pr => pr.1 == k)).isSome = true := by
        rw [List.find?_cons_of_neg rest (by simpa using hk)] at h
        exact h
      have hrw : setAttr (pr :: rest) k v = pr :: setAttr rest k v := by
        unfold setAttr
        rw [List.map_cons, if_neg hk]
      rw [hrw, List.find?_cons_of_neg (setAttr rest k v) (by simpa using hk)]
      exact ih h'

theorem processImgsN_sound (dl : String → String → Option String) (baseUrl : String) :
    (n m : Node) → processImgsN dl baseUrl n = some m →
      ∀ e ∈ (elemsOf m).filter (fun x => x.tagOf == "img" && hasAttrB x "src"),
        imgOk dl baseUrl e
  | .elem t a ch, m, h, e, he => by
    by_cases himg : (t == "img" && hasAttrB (.elem t a ch) "src") = true
    · by_cases hdata : strStartsWith ((getAttr (.elem t a ch) "src").getD "") "data:" = true
      · have hm : m = .elem t a (processImgsN.goL dl baseUrl ch) := by
          simp [processImgsN, himg, hdata] at h
          exact h.symm
        subst hm
        rcases List.mem_filter.mp he with ⟨hmem, hpred⟩
        simp only [elemsOf, List.mem_cons] at hmem
        rcases hmem with rfl | hmem
        · exact Or.inl hdata
        · exact goL_sound ch e (List.mem_filter.mpr ⟨hmem, hpred⟩)
      · cases hdl : downloadResource dl baseUrl ((getAttr (.elem t a ch) "src").getD "")
            "images" with
        | none => simp [processImgsN, himg, hdata, hdl] at h
        | some p =>
          have hm : m = .elem t (setAttr a "src" p) (processImgsN.goL dl baseUrl ch) := by
            simp [processImgsN, himg, hdata, hdl] at h
            exact h.symm
          subst hm
          rcases List.mem_filter.mp he with ⟨hmem, hpred⟩
          simp only [elemsOf, List.mem_cons] at hmem
          rcases hmem with rfl | hmem
          · refine Or.inr ⟨(getAttr (.elem t a ch) "src").getD "", ?_⟩
            have hattr : (a.find? (fun pr => pr.1 == "src")).isSome = true := by
              have hh := (Bool.and_eq_true _ _).mp himg
              simpa [hasAttrB, getAttr] using hh.2
            have hget := getAttr_setAttr a "src" p hattr
            rw [hdl]
            simp [getAttr, hget]
          · exact goL_sound ch e (List.mem_filter.mpr ⟨hmem, hpred⟩)
    · have hm : m = .elem t a (processImgsN.goL dl baseUrl ch) := by
        simp [processImgsN, himg] at h
        exact h.symm
      subst hm
      rcases List.mem_filter.mp he with ⟨hmem, hpred⟩
      simp only [elemsOf, List.mem_cons] at hmem
      rcases hmem with rfl | hmem
      · exact absurd hpred (by simpa [Node.tagOf, hasAttrB, getAttr] using himg)
      · exact goL_sound ch e (List.mem_filter.mpr ⟨hmem, hpred⟩)
  | .text s, m, h, e, he => by
    simp only [processImgsN, Option.some.injEq] at h
    subst h
    simp [elemsOf] at he
  | .comment s, m, h, e, he => by
    simp only [processImgsN, Option.some.injEq] at h
    subst h
    simp [elemsOf] at he
where goL_sound : (l : List Node) →
    ∀ e ∈ (elemsOf.go (processImgsN.goL dl baseUrl l)).filter
        (fun x => x.tagOf == "img" && hasAttrB x "src"), imgOk dl baseUrl e
  | [], e, he => by simp [processImgsN.goL, elemsOf.go] at he
  | n :: ns, e, he => by
    cases hn : processImgsN dl baseUrl n with
    | none =>
      rw [processImgsN.goL, hn] at he
      exact goL_sound ns e he
    | some n' =>
      rw [processImgsN.goL, hn] at he
      simp only [elemsOf.go, List.filter_append, List.mem_append] at he
      rcases he with he | he
      · exact processImgsN_sound dl baseUrl n n' hn e he
      · exact goL_sound ns e he

theorem splitAtUrlToken_eq : (l b t a : List Char) → splitAtUrlToken l = some (b, t, a) →
    l = b ++ t ++ a
  | [], b, t, a => by simp [splitAtUrlToken]
  | c :: cs, b, t, a => by
    intro h
    by_cases hm : matchesUrlTok (c :: cs)
    · simp only [splitAtUrlToken, hm, if_true, Option.some.injEq, Prod.mk.injEq] at h
      obtain ⟨rfl, rfl, rfl⟩ := h
      simp
    · simp only [splitAtUrlToken, hm, Bool.false_eq_true, if_false] at h
      cases hr : splitAtUrlToken cs with
      | none => rw [hr] at h; exact absurd h (by simp)
      | some tr =>
        obtain ⟨b', t', a'⟩ := tr
        rw [hr] at h
        simp only [Option.some.injEq, Prod.mk.injEq] at h
        obtain ⟨rfl, rfl, rfl⟩ := h
        have hcs := splitAtUrlToken_eq cs b' t' a' hr
        simp [hcs]

theorem tryCloseG3_eq (l g3 r : List Char) (h : tryCloseG3 l = some (g3, r)) :
    l = g3 ++ r := by
  match l with
  | [] => simp [tryCloseG3] at h
  | q :: rest2 =>
    by_cases hq : isQuoteChar q = true
    · simp only [tryCloseG3, hq, if_true] at h
      cases hd : rest2.dropWhile wsChar with
      | nil => rw [hd] at h; exact absurd h (by simp)
      | cons x xs =>
        rw [hd] at h
        by_cases hx : x = ')'
        · subst hx
          simp only [Option.some.injEq, Prod.mk.injEq] at h
          obtain ⟨rfl, rfl⟩ := h
          have hsplit := List.takeWhile_append_dropWhile (p := wsChar) (l := rest2)
          rw [hd] at hsplit
          simp only [List.cons_append, List.append_assoc, List.singleton_append,
            List.nil_append]
          rw [hsplit]
        · exact absurd h (by simp [hx])
    · simp only [tryCloseG3, hq, Bool.false_eq_true, if_false] at h
      cases hd : (q :: rest2).dropWhile wsChar with
      | nil => rw [hd] at h; exact absurd h (by simp)
      | cons x xs =>
        rw [hd] at h
        by_cases hx : x = ')'
        · subst hx
          simp only [Option.some.injEq, Prod.mk.injEq] at h
          obtain ⟨rfl, rfl⟩ := h
          have hsplit := List.takeWhile_append_dropWhile (p := wsChar) (l := q :: rest2)
          rw [hd] at hsplit
          rw [List.append_assoc, List.singleton_append, hsplit]
        · exact absurd h (by simp [hx])

theorem parseG1_eq (l g1r r1 : List Char) (h : parseG1 l = (g1r, r1)) : l = g1r ++ r1 := by
  unfold parseG1 at h
  have hsplit := List.takeWhile_append_dropWhile (p := wsChar) (l := l)
  cases hd : l.dropWhile wsChar with
  | nil =>
    rw [hd] at h hsplit
    simp only [Prod.mk.injEq] at h
    obtain ⟨rfl, rfl⟩ := h
    rw [List.append_nil]
    simpa using hsplit.symm
  | cons q r =>
    rw [hd] at h hsplit
    by_cases hq : isQuoteChar q = true
    · simp only [hq, if_true, Prod.mk.injEq] at h
      obtain ⟨rfl, rfl⟩ := h
      rw [List.append_assoc, List.singleton_append, hsplit]
    · simp only [hq, Bool.false_eq_true, if_false, Prod.mk.injEq] at h
      obtain ⟨rfl, rfl⟩ := h
      exact hsplit.symm

theorem findCloseG2_eq : (l g2 g3 r : List Char) → findCloseG2 l = some (g2, g3, r) →
    l = g2 ++ g3 ++ r
  | [], g2, g3, r => by simp [findCloseG2]
  | c :: cs, g2, g3, r => by
    intro h
    cases ht : tryCloseG3 (c :: cs) with
    | some pr =>
      obtain ⟨g3', r'⟩ := pr
      rw [findCloseG2, ht] at h
      simp only [Option.some.injEq, Prod.mk.injEq] at h
      obtain ⟨rfl, rfl, rfl⟩ := h
      simpa using tryCloseG3_eq (c :: cs) g3' r' ht
    | none =>
      rw [findCloseG2, ht] at h
      by_cases hc : (c == '\n') = true
      · rw [if_pos hc] at h; exact absurd h (by simp)
      · rw [if_neg hc] at h
        cases hr : findCloseG2 cs with
        | none => rw [hr] at h; exact absurd h (by simp)
        | some tr =>
          obtain ⟨g2', g3', r'⟩ := tr
          rw [hr] at h
          simp only [Option.some.injEq, Prod.mk.injEq] at h
          obtain ⟨rfl, rfl, rfl⟩ := h
          have hcs := findCloseG2_eq cs g2' g3' r' hr
          simp [hcs]

theorem replaceUrlCallback_dlNone (baseUrl baseCssUrl g0 g1 g2 g3 : String) :
    replaceUrlCallback dlNoneRes baseUrl baseCssUrl g0 g1 g2 g3 = g0 := by
  unfold replaceUrlCallback
  by_cases h1 : (strStartsWith (stripQuotes g2) "data:" ||
      ((strStartsWith (stripQuotes g2) "http://" || strStartsWith (stripQuotes g2) "https://") &&
       !strStartsWith (stripQuotes g2) baseUrl)) = true
  · simp [h1]
  · simp only [h1, Bool.false_eq_true, if_false]
    cases cssFolderOf (stripQuotes g2) <;> simp [downloadResource, dlNoneRes]

theorem processCssScan_dlNone (baseUrl baseCssUrl : String) :
    ∀ (fuel : Nat) (l : List Char),
      processCssScan dlNoneRes baseUrl baseCssUrl fuel l = l := by
  intro fuel
  induction fuel with
  | zero => intro l; rfl
  | succ f ih =>
    intro l
    cases hs : splitAtUrlToken l with
    | none => simp [processCssScan, hs]
    | some tr =>
      obtain ⟨b, t, a⟩ := tr
      have hl := splitAtUrlToken_eq l b t a hs
      cases hp : parseG1 a with
      | mk g1r rest1 =>
        have ha := parseG1_eq a g1r rest1 hp
        cases hc : findCloseG2 rest1 with
        | none =>
          simp only [processCssScan, hs, hp, hc, ih]
          simp [hl]
        | some tr2 =>
          obtain ⟨g2, g3, rest⟩ := tr2
          have hr := findCloseG2_eq rest1 g2 g3 rest hc
          simp only [processCssScan, hs, hp, hc, ih, replaceUrlCallback_dlNone]
          subst hl ha hr
          simp

/-- C9: resource-fetch failures stay local — (i) after the image pass every
remaining `img[src]` carries a `data:` URI or a successfully downloaded
path, so an image whose download failed is gone from the content entirely;
(ii) when every download fails, the emitted CSS equals the input character
for character (each `url()` reference is left unmodified); (iii) the
discovered next URL never depends on the resource downloader, so the crawl
continues regardless of failures. -/
theorem resource_failure_is_local :
    (∀ (dl : String → String → Option String) (baseUrl : String) (frag : Node),
      ∀ e ∈ imgSrcElems (processImages dl baseUrl frag), imgOk dl baseUrl e) ∧
    (∀ baseUrl baseCssUrl css : String,
      processCssUrls dlNoneRes baseUrl baseCssUrl css = css) ∧
    (∀ (dl : String → String → Option String) (baseUrl : String) (st : CrawlState)
        (currentUrl : String) (pageCount : Nat) (soup : Node),
      (processPage dl baseUrl st currentUrl pageCount soup).2.2 =
        findNextPageUrl baseUrl soup currentUrl) := by
  refine ⟨?_, ?_, ?_⟩
  · intro dl baseUrl frag e he
    cases frag with
    | elem t a ch =>
      exact processImgsN_sound.goL_sound dl baseUrl ch e he
    | text s => simp [imgSrcElems, processImages, strictElems] at he
    | comment s => simp [imgSrcElems, processImages, strictElems] at he
  · intro baseUrl baseCssUrl css
    unfold processCssUrls
    rw [processCssScan_dlNone]
  · intro dl baseUrl st currentUrl pageCount soup
    cases hempty : hasStrippedText (extractContentSlice soup) with
    | false =>
      rw [processPage_of_empty dl baseUrl st currentUrl pageCount soup hempty]
    | true =>
      rw [processPage_of_content dl baseUrl st currentUrl pageCount soup hempty]

/-- C9 witness: in `c9frag` the failed image is gone and the `data:` image
remains legitimate; an all-fail stylesheet round-trips unchanged. -/
theorem resource_failure_is_local_witness :
    imgOk c9dl "http://b.com" (.elem "img" [("src", "data:image/png;base64,AA==")] []) ∧
    processCssUrls dlNoneRes "http://b.com" "http://b.com/css/main.css"
      "body { background: url(gone.png); }" = "body { background: url(gone.png); }" :=
  ⟨resource_failure_is_local.1 c9dl "http://b.com" c9frag
      (.elem "img" [("src", "data:image/png;base64,AA==")] []) (by decide),
   resource_failure_is_local.2.1 "http://b.com" "http://b.com/css/main.css"
     "body { background: url(gone.png); }"⟩

/- ===== TOC file-name invariant (C10) ===== -/

theorem processPage_navOk (dl : String → String → Option String) (baseUrl : String)
    (st : CrawlState) (currentUrl : String) (pageCount : Nat) (soup : Node)
    (h : navOk st) : navOk (processPage dl baseUrl st currentUrl pageCount soup).1 := by
  cases hempty : hasStrippedText (extractContentSlice soup) with
  | false =>
    rw [processPage_of_empty dl baseUrl st currentUrl pageCount soup hempty]
    exact h
  | true =>
    rw [processPage_content_state dl baseUrl st currentUrl pageCount soup hempty]
    generalize pageRecord dl baseUrl st.chapters currentUrl pageCount soup = R
    intro e he
    by_cases hflag : (tocUrlFlag currentUrl && isChapterTitlePat R.title) = true
    · rw [if_pos hflag] at he
      rcases List.mem_append.mp he with hold | hnew
      · obtain ⟨i, ch0, hget, hf, ht⟩ := h e hold
        have hlt : i < st.chapters.length := by
          by_contra hge
          rw [List.get?_eq_none.mpr (Nat.le_of_not_lt hge)] at hget
          exact absurd hget (by simp)
        exact ⟨i, ch0, by rw [List.get?_append hlt]; exact hget, hf, ht⟩
      · simp only [List.mem_singleton] at hnew
        subst hnew
        refine ⟨st.chapters.length, R, ?_, ?_, rfl⟩
        · rw [List.get?_append_right (Nat.le_refl _)]
          simp
        · simp [List.length_append, navFileName, packagingFileName]
    · rw [if_neg hflag] at he
      obtain ⟨i, ch0, hget, hf, ht⟩ := h e he
      have hlt : i < st.chapters.length := by
        by_contra hge
        rw [List.get?_eq_none.mpr (Nat.le_of_not_lt hge)] at hget
        exact absurd hget (by simp)
      exact ⟨i, ch0, by rw [List.get?_append hlt]; exact hget, hf, ht⟩

theorem scrapeLoop_navOk (fetch : String → Option Node)
    (dl : String → String → Option String) (baseUrl : String) (maxPages : Option Nat) :
    ∀ (fuel : Nat) (st : CrawlState) (currentUrl : String) (pageCount : Nat),
      navOk st → navOk (scrapeLoop fetch dl baseUrl maxPages fuel st currentUrl pageCount) := by
  intro fuel
  induction fuel with
  | zero => intro st currentUrl pageCount h; exact h
  | succ f ih =>
    intro st currentUrl pageCount h
    rw [scrapeLoop]
    by_cases hmax : ltMaxPages pageCount maxPages = true
    · rw [hmax]
      simp only [Bool.not_true, Bool.false_eq_true, if_false]
      by_cases hvis : st.visited.contains currentUrl = true
      · rw [if_pos hvis]; exact h
      · rw [if_neg hvis]
        have h1 : navOk (⟨st.chapters, st.nav, st.visited ++ [currentUrl]⟩ : CrawlState) := h
        cases hfetch : fetch currentUrl with
        | none => exact h1
        | some soup =>
          have h2 := processPage_navOk dl baseUrl
            ⟨st.chapters, st.nav, st.visited ++ [currentUrl]⟩ currentUrl (pageCount + 1)
            soup h1
          rcases hp : processPage dl baseUrl ⟨st.chapters, st.nav, st.visited ++ [currentUrl]⟩
              currentUrl (pageCount + 1) soup with ⟨st2, chd, next⟩
          rw [hp] at h2
          simp only [hp]
          cases chd with
          | none =>
            cases next with
            | some nu => exact ih st2 nu (pageCount + 1) h2
            | none => exact h2
          | some ch =>
            cases next with
            | some nu =>
              show navOk (if (nu != currentUrl && ltMaxPages (pageCount + 1) maxPages) = true
                then scrapeLoop fetch dl baseUrl maxPages f st2 nu (pageCount + 1) else st2)
              by_cases hcont : (nu != currentUrl && ltMaxPages (pageCount + 1) maxPages) = true
              · rw [if_pos hcont]; exact ih st2 nu (pageCount + 1) h2
              · rw [if_neg hcont]; exact h2
            | none => exact h2
    · have hm2 : ltMaxPages pageCount maxPages = false := by simpa using hmax
      rw [hm2]
      simp only [Bool.not_false, if_true]
      exact h

/-- C10: for every TOC entry produced by a crawl, the file name recorded at
creation time equals the packaging-time file name of the chapter it was
created for (derived from that chapter's position in the final chapter
list), and the entry carries that chapter's title. -/
theorem toc_entries_match_packaging (fetch : String → Option Node)
    (dl : String → String → Option String) (baseUrl : String) (maxPages : Option Nat)
    (fuel : Nat) (startUrl : String) :
    ∀ e ∈ (scrapeBook fetch dl baseUrl maxPages fuel startUrl).nav,
      ∃ i ch, (scrapeBook fetch dl baseUrl maxPages fuel startUrl).chapters.get? i = some ch ∧
        e.fileName = packagingFileName i ∧ e.title = ch.title := by
  exact scrapeLoop_navOk fetch dl baseUrl maxPages fuel initialCrawlState startUrl 0
    (by intro e he; simp [initialCrawlState] at he)

/-- C10 witness: the single-chapter crawl of `c10fetch` produces the entry
`chap_001.xhtml`, which matches the packaged chapter. -/
theorem toc_entries_match_packaging_witness :
    ∃ i ch, (scrapeBook c10fetch dlNoneRes "http://b.com" none 5 c10url).chapters.get? i =
        some ch ∧
      (NavEntry.mk "Chapter 1" "chap_001.xhtml").fileName = packagingFileName i ∧
      (NavEntry.mk "Chapter 1" "chap_001.xhtml").title = ch.title :=
  toc_entries_match_packaging c10fetch dlNoneRes "http://b.com" none 5 c10url
    ⟨"Chapter 1", "chap_001.xhtml"⟩ (by decide)
